import Mathlib

/-!
# osRoom file-storage: native crypto core and secure storage

A shallow embedding of `crypto_core.c` and `secure_storage.c`
(`file-storage/src/main/resources/native`).

Conventions of the embedding.

* An `unsigned char` is a `Nat` below 256, an `unsigned int` a `Nat` taken modulo `2 ^ 32`,
  a `size_t` a `Nat` taken modulo `2 ^ 64`, an `int` or `time_t` an `Int`.
* A pointer to input bytes together with its length argument is an `Option (List Nat)`:
  `none` is `NULL`, `some l` addresses the `l.length` bytes of `l`.
* A pointer to a buffer the callee writes is a `Bool` (`true` when it is not `NULL`); the
  bytes the call wrote are part of the result, `none` when the call returned before writing,
  which leaves the caller's buffer as it was.
* A C string is the `List Char` of its characters before the terminator.
* The file-scope variables of the two translation units are the fields of `Globals`.
* `rand()`, `time(NULL)`, `malloc` and the contents of uninitialised locals come from a
  `World`; `printf` output is not modelled.
-/

namespace FileStorage

/-! ## Machine arithmetic -/

/-- Value of a `size_t` expression: wraps modulo `2 ^ 64`. -/
def to_size_t (n : Nat) : Nat := n % 2 ^ 64

/-- Value of an `unsigned int` expression: wraps modulo `2 ^ 32`. -/
def to_uint (n : Nat) : Nat := n % 2 ^ 32

/-- The conversion `(unsigned int)t` of a signed value. -/
def int_to_uint (t : Int) : Nat := (t % 2 ^ 32).toNat

/-- The conversion `(int)n` of an unsigned value: two's complement on 32 bits. -/
def to_int (n : Nat) : Int :=
  if n % 2 ^ 32 < 2 ^ 31 then ((n % 2 ^ 32 : Nat) : Int) else ((n % 2 ^ 32 : Nat) : Int) - 2 ^ 32

/-- The conversion to `unsigned char`. -/
def to_uchar (n : Nat) : Nat := n % 256

/-- The expression `security_level & 0xFF` on a two's-complement `int`. -/
def level_byte (security_level : Int) : Nat := (security_level % 256).toNat

/-! ## Constants of `crypto_core.h` -/

def SECURITY_LEVEL_STANDARD : Int := 1
def SECURITY_LEVEL_ENHANCED : Int := 2
def SECURITY_LEVEL_MAXIMUM : Int := 3
def SECURITY_LEVEL_CLASSIFIED : Int := 4
def SECURITY_LEVEL_TOP_SECRET : Int := 5

/-! ## State -/

/-- File-scope variables: `MASTER_KEY[32]` and `INITIALIZED` of `crypto_core.c`,
`STORAGE_PATH[512]` (as a C string) and `STORAGE_INITIALIZED` of `secure_storage.c`. -/
structure Globals where
  MASTER_KEY : List Nat
  INITIALIZED : Int
  STORAGE_PATH : List Char
  STORAGE_INITIALIZED : Int
deriving DecidableEq, Repr

/-- State at program start: every static is zero-initialised. -/
def Globals.initial : Globals :=
  { MASTER_KEY := List.replicate 32 0, INITIALIZED := 0,
    STORAGE_PATH := [], STORAGE_INITIALIZED := 0 }

/-- What one call observes of its environment. `rand k` and `malloc_ok k` answer the `k`-th
call of `rand()` and `malloc` made during the operation (`malloc_ok k` is `false` when that
allocation returns `NULL`); `time 0` is the clock read by `crypto_generate_random` and `time 1`
the later reading stored in a metadata timestamp; `stack k` is the byte found at offset `k` of
a local buffer that has not been written yet. `srand` only reseeds the hidden state behind
`rand`, whose answers are taken as given. -/
structure World where
  time : Nat → Int
  rand : Nat → Nat
  malloc_ok : Nat → Bool
  stack : Nat → Nat

/-- The record `FileMetadata` of `secure_storage.c`. -/
structure FileMetadata where
  file_id : List Char
  original_name : List Char
  original_size : Nat
  hash : List Nat
  security_level : Int
  timestamp : Int
deriving DecidableEq, Repr

/-- Values left in the out-parameters of `storage_retrieve_file`. `output_data` is the pointer
stored in `*output_data` (`some none` for `NULL`, `some (some l)` for a buffer holding `l`),
`output_size` the value stored in `*output_size`, `original_name` the C string left in the
caller's name buffer; `none` everywhere means the out-parameter was not written. -/
structure RetrieveResult where
  ret : Int
  output_data : Option (Option (List Nat))
  output_size : Option Nat
  original_name : Option (List Char)
deriving DecidableEq, Repr

/-! ## crypto_core.c -/

/-- `crypto_init`: no-op returning 1 when already initialised; otherwise fills the 32 key bytes
with `(unsigned char)(rand() % 256)` and sets the flag. -/
def crypto_init (g : Globals) (rand : Nat → Nat) : Int × Globals :=
  if g.INITIALIZED ≠ 0 then (1, g)
  else
    (1, { g with
          MASTER_KEY := (List.range 32).map (fun i => to_uchar (rand i % 256)),
          INITIALIZED := 1 })

/-- `crypto_cleanup`: returns at once when not initialised; otherwise `memset`s the key to zero
and clears the flag. -/
def crypto_cleanup (g : Globals) : Globals :=
  if g.INITIALIZED = 0 then g
  else { g with MASTER_KEY := List.replicate 32 0, INITIALIZED := 0 }

/-- The 16 bytes `iv[i] = (unsigned char)(rand() % 256)` drawn by `crypto_encrypt_data`. -/
def draw_iv (rand : Nat → Nat) : List Nat :=
  (List.range 16).map (fun i => to_uchar (rand i % 256))

/-- `crypto_encrypt_data(input, input_len, output, security_level)`. Returns the `int` result
and the bytes written to `output`: the IV followed by
`input[i] ^ MASTER_KEY[i % 32] ^ iv[i % 16] ^ (security_level & 0xFF)` for each `i`. -/
def crypto_encrypt_data (g : Globals) (rand : Nat → Nat) (input : Option (List Nat))
    (output : Bool) (security_level : Int) : Int × Option (List Nat) :=
  match input with
  | none => (-1, none)
  | some inp =>
    if g.INITIALIZED = 0 ∨ output = false then (-1, none)
    else
      let iv := draw_iv rand
      let body := (List.range inp.length).map (fun i =>
        to_uchar (inp.getD i 0 ^^^ g.MASTER_KEY.getD (i % 32) 0 ^^^ iv.getD (i % 16) 0
          ^^^ level_byte security_level))
      (to_int (to_size_t (inp.length + 16)), some (iv ++ body))

/-- `crypto_decrypt_data(input, input_len, output, security_level)`. Fails with -1 when
`input_len <= 16`; otherwise reads the IV from the first 16 bytes and writes
`input[i + 16] ^ MASTER_KEY[i % 32] ^ iv[i % 16] ^ (security_level & 0xFF)`. -/
def crypto_decrypt_data (g : Globals) (input : Option (List Nat)) (output : Bool)
    (security_level : Int) : Int × Option (List Nat) :=
  match input with
  | none => (-1, none)
  | some inp =>
    if g.INITIALIZED = 0 ∨ output = false ∨ inp.length ≤ 16 then (-1, none)
    else
      let iv := inp.take 16
      let body := (List.range (inp.length - 16)).map (fun i =>
        to_uchar (inp.getD (i + 16) 0 ^^^ g.MASTER_KEY.getD (i % 32) 0 ^^^ iv.getD (i % 16) 0
          ^^^ level_byte security_level))
      (to_int (to_size_t (inp.length - 16)), some body)

/-- One iteration of the rolling loop of `crypto_compute_hash` on the triple `(i, h, hash)`:
`h = (h << 5) + h + data[i]; hash[i % 32] ^= (h & 0xFF);`. -/
def hash_step (st : Nat × Nat × List Nat) (d : Nat) : Nat × Nat × List Nat :=
  let i := st.1
  let h := to_uint (to_uint (to_uint (st.2.1 <<< 5) + st.2.1) + d)
  (i + 1, h, st.2.2.set (i % 32) (to_uchar (st.2.2.getD (i % 32) 0 ^^^ (h &&& 0xFF))))

/-- The rolling loop of `crypto_compute_hash` over the whole input, from `i = 0`,
`h = 0x12345678` and the zeroed 32-byte buffer. -/
def hash_loop (data : List Nat) : Nat × Nat × List Nat :=
  data.foldl hash_step (0, 0x12345678, List.replicate 32 0)

/-- The closing loop of `crypto_compute_hash`: `hash[i] ^= MASTER_KEY[i]` for `i < 32`. -/
def hash_finalize (key hash : List Nat) : List Nat :=
  (List.range 32).map (fun i => to_uchar (hash.getD i 0 ^^^ key.getD i 0))

/-- `crypto_compute_hash(data, data_len, hash)`: the 32 bytes written to `hash`, or `none` when
the guard returns before writing. -/
def crypto_compute_hash (g : Globals) (data : Option (List Nat)) (hash : Bool) :
    Option (List Nat) :=
  match data with
  | none => none
  | some d =>
    if g.INITIALIZED = 0 ∨ hash = false then none
    else some (hash_finalize g.MASTER_KEY (hash_loop d).2.2)

/-- The generator loop of `crypto_generate_random`:
`seed = seed * 1103515245 + 12345; buffer[i] = (unsigned char)((seed >> 16) & 0xFF);`. -/
def random_loop : Nat → Nat → List Nat
  | 0, _ => []
  | n + 1, seed =>
    let seed1 := to_uint (to_uint (seed * 1103515245) + 12345)
    to_uchar ((seed1 >>> 16) &&& 0xFF) :: random_loop n seed1

/-- `crypto_generate_random(buffer, length)` when `time(NULL)` answers `now`: the bytes written
to `buffer`, or `none` when the guard returns before writing. -/
def crypto_generate_random (g : Globals) (now : Int) (buffer : Bool) (length : Nat) :
    Option (List Nat) :=
  if g.INITIALIZED = 0 ∨ buffer = false then none
  else some (random_loop length (int_to_uint now))

/-- `crypto_verify_integrity(data, data_len, stored_hash)`: recomputes the digest into the local
`computed_hash` and compares the 32 bytes, leaving the loop at the first difference. The inner
call runs under the guard that has just passed, so it always writes `computed_hash`. -/
def crypto_verify_integrity (g : Globals) (data : Option (List Nat))
    (stored_hash : Option (List Nat)) : Int :=
  match data, stored_hash with
  | some d, some stored =>
    if g.INITIALIZED = 0 then 0
    else
      match crypto_compute_hash g (some d) true with
      | none => 0
      | some computed_hash =>
        if (List.range 32).all (fun i => computed_hash.getD i 0 == stored.getD i 0) then 1
        else 0
  | _, _ => 0

/-- Lowercase hexadecimal digit of a value below 16. -/
def hex_digit (n : Nat) : Char :=
  "0123456789abcdef".toList.getD n '0'

/-- The two characters `sprintf` writes for `%02x` applied to an `unsigned char`. -/
def fmt_02x (b : Nat) : List Char := [hex_digit (b / 16), hex_digit (b % 16)]

/-- `crypto_hash_to_string(hash, output)`: the 64 characters written before the terminator, or
`none` when a pointer is `NULL`. -/
def crypto_hash_to_string (hash : Option (List Nat)) (output : Bool) : Option (List Char) :=
  match hash with
  | none => none
  | some h =>
    if output = false then none
    else some (((List.range 32).map (fun i => fmt_02x (h.getD i 0))).flatten)

/-! ## secure_storage.c -/

/-- `storage_init(storage_path)`. -/
def storage_init (g : Globals) (w : World) (storage_path : Option (List Char)) :
    Int × Globals :=
  if g.STORAGE_INITIALIZED ≠ 0 then (1, g)
  else
    let r := crypto_init g w.rand
    if r.1 = 0 then (0, r.2)
    else
      (1, { r.2 with
            STORAGE_PATH :=
              match storage_path with
              | some p => p.take 511
              | none => "/secure/storage".toList,
            STORAGE_INITIALIZED := 1 })

/-- `storage_cleanup()`. -/
def storage_cleanup (g : Globals) : Globals :=
  if g.STORAGE_INITIALIZED = 0 then g
  else { crypto_cleanup g with STORAGE_INITIALIZED := 0 }

/-- The `sprintf` of `generate_file_id`: sixteen `%02x` fields in groups of 4, 2, 2, 2 and 6
bytes separated by `-`. -/
def format_uuid (random_bytes : List Nat) : List Char :=
  let x := fun i => fmt_02x (random_bytes.getD i 0)
  x 0 ++ x 1 ++ x 2 ++ x 3 ++ ['-'] ++ x 4 ++ x 5 ++ ['-'] ++ x 6 ++ x 7 ++ ['-']
    ++ x 8 ++ x 9 ++ ['-'] ++ x 10 ++ x 11 ++ x 12 ++ x 13 ++ x 14 ++ x 15

/-- `generate_file_id(id_buffer)`: the string written to `id_buffer`. The local `random_bytes`
keeps its uninitialised contents when `crypto_generate_random` returns without writing. -/
def generate_file_id (g : Globals) (now : Int) (stack : Nat → Nat) (id_buffer : Bool) :
    Option (List Char) :=
  if id_buffer = false then none
  else
    let random_bytes :=
      match crypto_generate_random g now true 16 with
      | some bytes => bytes
      | none => (List.range 16).map (fun i => to_uchar (stack i))
    some (format_uuid random_bytes)

/-- The `FileMetadata` local that `storage_store_file` fills in before encrypting. -/
def store_metadata (g : Globals) (w : World) (file_data : List Nat) (original_name : List Char)
    (security_level : Int) : FileMetadata :=
  { file_id := (generate_file_id g (w.time 0) w.stack true).getD [],
    original_name := original_name.take 255,
    original_size := file_data.length,
    security_level := security_level,
    timestamp := w.time 1,
    hash := (crypto_compute_hash g (some file_data) true).getD (List.replicate 32 0) }

/-- `storage_store_file(file_data, file_size, original_name, security_level)`: the returned id,
`none` for `NULL`. Nothing is written anywhere: the encrypted buffer is freed and the metadata
local is dropped. -/
def storage_store_file (g : Globals) (w : World) (file_data : Option (List Nat))
    (original_name : Option (List Char)) (security_level : Int) : Option (List Char) :=
  match file_data, original_name with
  | some data, some name =>
    if g.STORAGE_INITIALIZED = 0 then none
    else if w.malloc_ok 0 = false then none
    else
      let metadata := store_metadata g w data name security_level
      let result := (crypto_encrypt_data g w.rand (some data) true security_level).1
      if result < 0 then none
      else some metadata.file_id
  | _, _ => none

/-- The placeholder ciphertext of `storage_retrieve_file`:
`encrypted_data[i] = (unsigned char)(i & 0xFF)` for `i < encrypted_size`. -/
def dummy_encrypted (encrypted_size : Nat) : List Nat :=
  (List.range encrypted_size).map (fun i => to_uchar (i &&& 0xFF))

/-- `storage_retrieve_file(file_id, output_data, output_size, original_name,
name_buffer_size)`. The metadata and the ciphertext are made up on the spot: name
`example.pdf`, size 1024, level `SECURITY_LEVEL_ENHANCED`, ciphertext `dummy_encrypted`.
`file_id` is only printed and copied into the metadata local: right after the guard,
`strcpy(metadata.file_id, file_id)` writes the id and its terminator into the 37-byte field
`file_id`, past its end when the id has more than 36 characters. The result is `none` for that
undefined behaviour and `some r` for a call that returns. -/
def storage_retrieve_file (g : Globals) (w : World) (file_id : Option (List Char))
    (output_data output_size original_name : Bool) (name_buffer_size : Nat) :
    Option RetrieveResult :=
  match file_id with
  | none => some { ret := 0, output_data := none, output_size := none, original_name := none }
  | some id =>
    if g.STORAGE_INITIALIZED = 0 ∨ output_data = false ∨ output_size = false then
      some { ret := 0, output_data := none, output_size := none, original_name := none }
    else if 36 < id.length then none
    else
      let metadata_original_name := "example.pdf".toList
      let metadata_original_size := 1024
      let metadata_security_level := SECURITY_LEVEL_ENHANCED
      let encrypted_size := to_size_t (metadata_original_size + 16)
      if w.malloc_ok 0 = false then
        some { ret := 0, output_data := none, output_size := none, original_name := none }
      else
        let encrypted_data := dummy_encrypted encrypted_size
        if w.malloc_ok 1 = false then
          some { ret := 0, output_data := some none, output_size := some metadata_original_size,
                 original_name := none }
        else
          let r := crypto_decrypt_data g (some encrypted_data) true metadata_security_level
          if r.1 < 0 then
            some { ret := 0, output_data := some none, output_size := some 0,
                   original_name := none }
          else
            some { ret := 1, output_data := some r.2,
                   output_size := some metadata_original_size,
                   original_name :=
                     if original_name = true ∧ name_buffer_size > 0 then
                       some (metadata_original_name.take (name_buffer_size - 1))
                     else none }

/-- `storage_delete_file(file_id)`: only the guard and the log lines; no variable is written. -/
def storage_delete_file (g : Globals) (file_id : Option (List Char)) : Int :=
  if g.STORAGE_INITIALIZED = 0 ∨ file_id = none then 0 else 1

/-- `storage_verify_integrity(file_id)`: only the guard and the log lines; nothing is read or
compared. -/
def storage_verify_integrity (g : Globals) (file_id : Option (List Char)) : Int :=
  if g.STORAGE_INITIALIZED = 0 ∨ file_id = none then 0 else 1

/-! ## jni_bridge.c -/

/-- The bridge's hash-only operation `computeFileHash(fileData)`: the Java string it returns.
The local `hash[32]` keeps its uninitialised contents when `crypto_compute_hash` returns
without writing. -/
def Java_com_safalifter_filestorage_service_SecureStorageService_computeFileHash
    (g : Globals) (stack : Nat → Nat) (fileData : List Nat) : List Char :=
  let hash :=
    match crypto_compute_hash g (some fileData) true with
    | some h => h
    | none => (List.range 32).map (fun i => to_uchar (stack i))
  match crypto_hash_to_string (some hash) true with
  | some hashString => hashString
  | none => []

/-! ## Histories of calls -/

/-- One call of the storage interface with its arguments and the environment it runs in. -/
inductive Call where
  | init (w : World) (storage_path : Option (List Char))
  | cleanup
  | store (w : World) (file_data : Option (List Nat)) (original_name : Option (List Char))
      (security_level : Int)
  | retrieve (w : World) (file_id : Option (List Char))
      (output_data output_size original_name : Bool) (name_buffer_size : Nat)
  | delete (file_id : Option (List Char))
  | verify (file_id : Option (List Char))

/-- The file-scope variables after a call: only `storage_init` and `storage_cleanup` assign
any of them. A `storage_retrieve_file` call that returns writes none of them (one whose
`strcpy` overflows does not return). -/
def Call.apply (g : Globals) : Call → Globals
  | Call.init w storage_path => (storage_init g w storage_path).2
  | Call.cleanup => storage_cleanup g
  | Call.store _ _ _ _ => g
  | Call.retrieve _ _ _ _ _ _ => g
  | Call.delete _ => g
  | Call.verify _ => g

/-- The file-scope variables after a sequence of calls. -/
def run (g : Globals) (calls : List Call) : Globals := calls.foldl Call.apply g

/-- A call of `storage_store_file` or `storage_delete_file`. -/
def Call.is_store_or_delete : Call → Bool
  | Call.store _ _ _ _ => true
  | Call.delete _ => true
  | _ => false

/-! ## The rolling loop with an 8-bit state -/

/-- One iteration of the variant of the rolling loop that keeps an 8-bit state:
`s = (33 * s + byte) mod 256; hash[i % 32] ^= s;`. -/
def hash_step_low_byte (st : Nat × Nat × List Nat) (d : Nat) : Nat × Nat × List Nat :=
  let i := st.1
  let s := (33 * st.2.1 + d) % 256
  (i + 1, s, st.2.2.set (i % 32) (to_uchar (st.2.2.getD (i % 32) 0 ^^^ s)))

/-- The variant loop over the whole input, from `i = 0`, `s = 0x78` and the zeroed 32-byte
buffer. -/
def hash_loop_low_byte (data : List Nat) : Nat × Nat × List Nat :=
  data.foldl hash_step_low_byte (0, 0x78, List.replicate 32 0)

/-- The variant of `crypto_compute_hash` that runs the 8-bit loop: same guard, same closing
loop over the master key. -/
def crypto_compute_hash_low_byte (g : Globals) (data : Option (List Nat)) (hash : Bool) :
    Option (List Nat) :=
  match data with
  | none => none
  | some d =>
    if g.INITIALIZED = 0 ∨ hash = false then none
    else some (hash_finalize g.MASTER_KEY (hash_loop_low_byte d).2.2)

/-! ## Tampering -/

/-- A written buffer with its byte `k` replaced by `v`. -/
def tamper (E : Option (List Nat)) (k v : Nat) : Option (List Nat) :=
  E.map (fun l => l.set k v)

/-! ## Sample states and environments -/

/-- An environment with a fixed clock, a counting `rand`, allocations that succeed and a zeroed
stack. -/
def World.sample : World :=
  { time := fun _ => 1700000000, rand := fun k => 7 * k + 3,
    malloc_ok := fun _ => true, stack := fun _ => 0 }

/-- A second call made within the same clock second as `World.sample`, with other `rand`
draws. -/
def World.same_second : World :=
  { time := fun _ => 1700000000, rand := fun k => 11 * k + 5,
    malloc_ok := fun _ => true, stack := fun _ => 0 }

/-- The sample environment with every allocation failing. -/
def World.no_memory : World :=
  { time := fun _ => 1700000000, rand := fun k => 7 * k + 3,
    malloc_ok := fun _ => false, stack := fun _ => 0 }

/-- The state reached from program start by `storage_init(NULL)` in the sample environment. -/
def Globals.ready : Globals := (storage_init Globals.initial World.sample none).2


/-- The state after `storage_cleanup()` and a second `storage_init(NULL)` whose `rand` draws
are those of `World.same_second`. -/
def Globals.rekeyed : Globals :=
  (storage_init (storage_cleanup Globals.ready) World.same_second none).2

set_option maxRecDepth 100000

/-! ## Arithmetic helpers -/

theorem to_uchar_lt (n : Nat) : to_uchar n < 256 := by
  unfold to_uchar; omega

theorem to_uchar_of_lt {n : Nat} (h : n < 256) : to_uchar n = n := by
  unfold to_uchar; omega

theorem to_uchar_xor (a b : Nat) : to_uchar (a ^^^ b) = to_uchar a ^^^ to_uchar b := by
  unfold to_uchar
  apply Nat.eq_of_testBit_eq
  intro i
  have h256 : (256 : Nat) = 2 ^ 8 := by norm_num
  rw [h256]
  simp only [Nat.testBit_mod_two_pow, Nat.testBit_xor]
  by_cases hi : i < 8 <;> simp [hi]

theorem to_uchar_idem (n : Nat) : to_uchar (to_uchar n) = to_uchar n := by
  unfold to_uchar; omega

theorem and_ff (n : Nat) : n &&& 0xFF = n % 256 := by
  have h := Nat.and_pow_two_sub_one_eq_mod n 8
  norm_num at h
  exact h

theorem to_int_of_lt {n : Nat} (h : n < 2 ^ 31) : to_int (to_size_t n) = (n : Int) := by
  unfold to_int to_size_t
  have h1 : n % 2 ^ 64 = n := Nat.mod_eq_of_lt (by omega)
  have h2 : n % 2 ^ 32 = n := Nat.mod_eq_of_lt (by omega)
  rw [h1, h2, if_pos h]

theorem level_byte_lt (L : Int) : level_byte L < 256 := by
  unfold level_byte
  omega

theorem level_byte_ofNat (n : Nat) : level_byte (Int.ofNat n) = n % 256 := by
  unfold level_byte
  simp only [Int.ofNat_eq_coe]
  omega

theorem level_byte_negSucc (n : Nat) : level_byte (Int.negSucc n) = 255 - n % 256 := by
  unfold level_byte
  rw [Int.negSucc_eq]
  omega

theorem sub_255_eq_xor : ∀ x, x < 256 → 255 - x = 255 ^^^ x := by
  decide

/-- `(L ^ L1) & 0xFF` is the xor of `L & 0xFF` and `L1 & 0xFF` on two's-complement `int`s. -/
theorem level_byte_xor (L L1 : Int) :
    level_byte (Int.xor L L1) = level_byte L ^^^ level_byte L1 := by
  have hm : ∀ n : Nat, n % 256 < 256 := fun n => Nat.mod_lt _ (by norm_num)
  have hx : ∀ a b : Nat, (a ^^^ b) % 256 = a % 256 ^^^ b % 256 := fun a b => to_uchar_xor a b
  cases L with
  | ofNat a =>
    cases L1 with
    | ofNat b =>
      show level_byte (Int.ofNat (a ^^^ b)) = _
      rw [level_byte_ofNat, level_byte_ofNat, level_byte_ofNat, hx]
    | negSucc b =>
      show level_byte (Int.negSucc (a ^^^ b)) = _
      rw [level_byte_negSucc, level_byte_ofNat, level_byte_negSucc,
        sub_255_eq_xor _ (hm _), sub_255_eq_xor _ (hm _), hx]
      ac_rfl
  | negSucc a =>
    cases L1 with
    | ofNat b =>
      show level_byte (Int.negSucc (a ^^^ b)) = _
      rw [level_byte_negSucc, level_byte_ofNat, level_byte_negSucc,
        sub_255_eq_xor _ (hm _), sub_255_eq_xor _ (hm _), hx]
      ac_rfl
    | negSucc b =>
      show level_byte (Int.ofNat (a ^^^ b)) = _
      rw [level_byte_ofNat, level_byte_negSucc, level_byte_negSucc,
        sub_255_eq_xor _ (hm _), sub_255_eq_xor _ (hm _), hx]
      have e : 255 ^^^ a % 256 ^^^ (255 ^^^ b % 256)
          = (a % 256 ^^^ b % 256) ^^^ (255 ^^^ 255) := by ac_rfl
      rw [e, Nat.xor_self, Nat.xor_zero]

theorem xor_lt_256 {a b : Nat} (ha : a < 256) (hb : b < 256) : a ^^^ b < 256 := by
  have := Nat.xor_lt_two_pow (n := 8) (by simpa using ha) (by simpa using hb)
  simpa using this

/-- Applying the same three masks twice gives back the byte. -/
theorem xor_mask_cancel (p k v l : Nat) (hp : p < 256) :
    to_uchar (to_uchar (p ^^^ k ^^^ v ^^^ l) ^^^ k ^^^ v ^^^ l) = p := by
  have e : p ^^^ k ^^^ v ^^^ l ^^^ k ^^^ v ^^^ l = p := by
    have : p ^^^ k ^^^ v ^^^ l ^^^ k ^^^ v ^^^ l = p ^^^ ((k ^^^ k) ^^^ ((v ^^^ v) ^^^ (l ^^^ l))) := by
      ac_rfl
    rw [this]; simp
  rw [to_uchar_xor, to_uchar_xor, to_uchar_xor, to_uchar_idem, ← to_uchar_xor, ← to_uchar_xor,
    ← to_uchar_xor, e, to_uchar_of_lt hp]

/-- Decrypting with level `L1` what was encrypted with level `L` masks a byte with the xor of
the two level bytes. -/
theorem xor_mask_levels (p k v l l1 : Nat) (hp : p < 256) (hl : l < 256) (hl1 : l1 < 256) :
    to_uchar (to_uchar (p ^^^ k ^^^ v ^^^ l) ^^^ k ^^^ v ^^^ l1) = p ^^^ (l ^^^ l1) := by
  have e : p ^^^ k ^^^ v ^^^ l ^^^ k ^^^ v ^^^ l1 = (p ^^^ (l ^^^ l1)) ^^^ ((k ^^^ k) ^^^ (v ^^^ v)) := by
    ac_rfl
  have hlt : p ^^^ (l ^^^ l1) < 256 := by
    have h1 : l ^^^ l1 < 2 ^ 8 := Nat.xor_lt_two_pow (by simpa using hl) (by simpa using hl1)
    have h2 := Nat.xor_lt_two_pow (n := 8) (by simpa using hp) h1
    simpa using h2
  rw [to_uchar_xor, to_uchar_xor, to_uchar_xor, to_uchar_idem, ← to_uchar_xor, ← to_uchar_xor,
    ← to_uchar_xor, e]
  simp only [Nat.xor_self, Nat.xor_zero]
  exact to_uchar_of_lt hlt

/-- Replacing one operand `e` of a masked byte by `v` xors the result with `e ^ v`. -/
theorem xor_mask_replace (e v x : Nat) (he : e < 256) (hv : v < 256) :
    to_uchar (v ^^^ x) = to_uchar (e ^^^ x) ^^^ (e ^^^ v) := by
  rw [to_uchar_xor, to_uchar_xor, to_uchar_of_lt he, to_uchar_of_lt hv]
  have : e ^^^ to_uchar x ^^^ (e ^^^ v) = (v ^^^ to_uchar x) ^^^ (e ^^^ e) := by ac_rfl
  rw [this, Nat.xor_self, Nat.xor_zero]

/-! ## List helpers -/

theorem map_getD_range (P : List Nat) : (List.range P.length).map (fun i => P.getD i 0) = P := by
  apply List.ext_getElem
  · simp
  · intro i h1 h2
    simp [List.getD_eq_getElem?_getD, h2]

theorem take_getD_of_lt (l : List Nat) (n i : Nat) (h : i < n) :
    (l.take n).getD i 0 = l.getD i 0 := by
  simp [List.getD_eq_getElem?_getD, List.getElem?_take, h]

theorem getD_set (l : List Nat) (k v x : Nat) (hk : k < l.length) :
    (l.set k v).getD x 0 = if k = x then v else l.getD x 0 := by
  simp only [List.getD_eq_getElem?_getD, List.getElem?_set, hk, if_true]
  split <;> simp

theorem set_getD_self (l : List Nat) (k : Nat) : l.set k (l.getD k 0) = l := by
  apply List.ext_getElem (by simp)
  intro i h1 h2
  rw [List.getElem_set]
  split
  · rename_i h
    subst h
    exact List.getD_eq_getElem _ _ h2
  · rfl

theorem getD_lt_of_forall (l : List Nat) (h : ∀ b ∈ l, b < 256) (i : Nat) :
    l.getD i 0 < 256 := by
  rw [List.getD_eq_getElem?_getD]
  cases hi : l[i]? with
  | none => simp
  | some b => exact h b (List.getElem?_mem hi)

theorem replicate_getD_zero (n p : Nat) : (List.replicate n (0 : Nat)).getD p 0 = 0 := by
  rw [List.getD_eq_getElem?_getD]
  cases h : (List.replicate n (0 : Nat))[p]? with
  | none => rfl
  | some b =>
    have hm := List.getElem?_mem h
    rw [List.mem_replicate] at hm
    simp [hm.2]

/-- Characters `2 * i` and `2 * i + 1` of a string printed two characters per index. -/
theorem flatten_pairs_getD (f1 f2 : Nat → Char) (d : Char) (n : Nat) :
    ((List.range n).map (fun i => [f1 i, f2 i])).flatten.length = 2 * n ∧
      ∀ i, i < n →
        ((List.range n).map (fun i => [f1 i, f2 i])).flatten.getD (2 * i) d = f1 i ∧
        ((List.range n).map (fun i => [f1 i, f2 i])).flatten.getD (2 * i + 1) d = f2 i := by
  induction n with
  | zero => exact ⟨rfl, fun i hi => absurd hi (Nat.not_lt_zero i)⟩
  | succ k ih =>
    obtain ⟨hl, hg⟩ := ih
    have e : ((List.range (k + 1)).map (fun i => [f1 i, f2 i])).flatten
        = ((List.range k).map (fun i => [f1 i, f2 i])).flatten ++ [f1 k, f2 k] := by
      rw [List.range_succ, List.map_append, List.flatten_append]
      simp
    rw [e]
    constructor
    · rw [List.length_append, hl]
      simp
      omega
    · intro i hi
      by_cases hik : i < k
      · rw [List.getD_append _ _ _ _ (by rw [hl]; omega),
          List.getD_append _ _ _ _ (by rw [hl]; omega)]
        exact hg i hik
      · have hk : i = k := by omega
        subst hk
        rw [List.getD_append_right _ _ _ _ (by rw [hl]),
          List.getD_append_right _ _ _ _ (by rw [hl]; omega), hl]
        have e0 : 2 * i - 2 * i = 0 := by omega
        have e1 : 2 * i + 1 - 2 * i = 1 := by omega
        rw [e0, e1]
        exact ⟨rfl, rfl⟩

/-! ## Encryption and decryption -/

theorem draw_iv_length (rand : Nat → Nat) : (draw_iv rand).length = 16 := by
  simp [draw_iv]

theorem draw_iv_getD_lt (rand : Nat → Nat) (i : Nat) : (draw_iv rand).getD i 0 < 256 := by
  apply getD_lt_of_forall
  intro b hb
  simp only [draw_iv, List.mem_map] at hb
  obtain ⟨a, _, rfl⟩ := hb
  exact to_uchar_lt _

theorem draw_iv_getD (rand : Nat → Nat) (i : Nat) (hi : i < 16) :
    (draw_iv rand).getD i 0 = rand i % 256 := by
  simp [draw_iv, List.getD_eq_getElem?_getD, hi, to_uchar]

theorem encrypt_body_getD (g : Globals) (iv : List Nat) (P : List Nat) (L : Int) (i : Nat)
    (hi : i < P.length) :
    ((List.range P.length).map (fun i =>
        to_uchar (P.getD i 0 ^^^ g.MASTER_KEY.getD (i % 32) 0 ^^^ iv.getD (i % 16) 0
          ^^^ level_byte L))).getD i 0
      = to_uchar (P.getD i 0 ^^^ g.MASTER_KEY.getD (i % 32) 0 ^^^ iv.getD (i % 16) 0
          ^^^ level_byte L) := by
  simp [List.getD_eq_getElem?_getD, hi]

/-- Shape of a successful `crypto_encrypt_data` call. -/
theorem crypto_encrypt_data_eq (g : Globals) (rand : Nat → Nat) (P : List Nat) (L : Int)
    (hinit : g.INITIALIZED ≠ 0) :
    crypto_encrypt_data g rand (some P) true L =
      (to_int (to_size_t (P.length + 16)),
        some (draw_iv rand ++ (List.range P.length).map (fun i =>
          to_uchar (P.getD i 0 ^^^ g.MASTER_KEY.getD (i % 32) 0 ^^^ (draw_iv rand).getD (i % 16) 0
            ^^^ level_byte L)))) := by
  simp [crypto_encrypt_data, hinit]

/-- Shape of a successful `crypto_decrypt_data` call on an IV followed by a body. -/
theorem crypto_decrypt_data_append (g : Globals) (iv body : List Nat) (L : Int)
    (hinit : g.INITIALIZED ≠ 0) (hiv : iv.length = 16) (hbody : body ≠ []) :
    crypto_decrypt_data g (some (iv ++ body)) true L =
      (to_int (to_size_t body.length),
        some ((List.range body.length).map (fun i =>
          to_uchar (body.getD i 0 ^^^ g.MASTER_KEY.getD (i % 32) 0 ^^^ iv.getD (i % 16) 0
            ^^^ level_byte L)))) := by
  have hpos : 0 < body.length := List.length_pos.mpr hbody
  have hlen : ¬ (iv ++ body).length ≤ 16 := by
    rw [List.length_append, hiv]; omega
  have htake : (iv ++ body).take 16 = iv := by
    rw [← hiv]; simp
  have hsub : (iv ++ body).length - 16 = body.length := by simp [hiv]
  have hget : ∀ i, (iv ++ body).getD (i + 16) 0 = body.getD i 0 := by
    intro i
    simp [List.getD_eq_getElem?_getD, List.getElem?_append_right, hiv]
  unfold crypto_decrypt_data
  simp only [hinit, hlen, htake, hsub, hget]
  simp

/-- Shape of a successful `crypto_decrypt_data` call. -/
theorem crypto_decrypt_data_eq (g : Globals) (inp : List Nat) (L : Int)
    (hinit : g.INITIALIZED ≠ 0) (hlen : 16 < inp.length) :
    crypto_decrypt_data g (some inp) true L =
      (to_int (to_size_t (inp.length - 16)),
        some ((List.range (inp.length - 16)).map (fun i =>
          to_uchar (inp.getD (i + 16) 0 ^^^ g.MASTER_KEY.getD (i % 32) 0
            ^^^ (inp.take 16).getD (i % 16) 0 ^^^ level_byte L)))) := by
  have h : ¬ inp.length ≤ 16 := by omega
  simp [crypto_decrypt_data, hinit, h]

/-- The envelope written by `crypto_encrypt_data` holds bytes. -/
theorem envelope_getD_lt (g : Globals) (rand : Nat → Nat) (P : List Nat) (L : Int) (k : Nat) :
    (draw_iv rand ++ (List.range P.length).map (fun i =>
      to_uchar (P.getD i 0 ^^^ g.MASTER_KEY.getD (i % 32) 0 ^^^ (draw_iv rand).getD (i % 16) 0
        ^^^ level_byte L))).getD k 0 < 256 := by
  rw [List.getD_eq_getElem?_getD]
  cases h : (draw_iv rand ++ (List.range P.length).map (fun i =>
      to_uchar (P.getD i 0 ^^^ g.MASTER_KEY.getD (i % 32) 0 ^^^ (draw_iv rand).getD (i % 16) 0
        ^^^ level_byte L)))[k]? with
  | none => simp
  | some b =>
    have hmem := List.getElem?_mem h
    simp only [Option.getD_some]
    rw [List.mem_append] at hmem
    rcases hmem with hm | hm
    · simp only [draw_iv, List.mem_map] at hm
      obtain ⟨a, _, rfl⟩ := hm
      exact to_uchar_lt _
    · simp only [List.mem_map] at hm
      obtain ⟨a, _, rfl⟩ := hm
      exact to_uchar_lt _

/-- What `crypto_decrypt_data` at level `L1` writes for an envelope made at level `L`. -/
theorem decrypt_encrypt_levels (g : Globals) (rand : Nat → Nat) (L L1 : Int) (P : List Nat)
    (hinit : g.INITIALIZED ≠ 0) (hbytes : ∀ b ∈ P, b < 256) (hne : P ≠ []) :
    (crypto_decrypt_data g (crypto_encrypt_data g rand (some P) true L).2 true L1).2
      = some (P.map (fun p => p ^^^ (level_byte L ^^^ level_byte L1))) := by
  rw [crypto_encrypt_data_eq g rand P L hinit]
  have hbody : (List.range P.length).map (fun i =>
      to_uchar (P.getD i 0 ^^^ g.MASTER_KEY.getD (i % 32) 0 ^^^ (draw_iv rand).getD (i % 16) 0
        ^^^ level_byte L)) ≠ [] := by
    intro h
    have := congrArg List.length h
    simp at this
    exact hne this
  rw [crypto_decrypt_data_append g _ _ L1 hinit (draw_iv_length rand) hbody]
  simp only [List.length_map, List.length_range]
  congr 1
  conv_rhs => rw [← map_getD_range P, List.map_map]
  apply List.map_congr_left
  intro i hi
  have hi' : i < P.length := List.mem_range.mp hi
  rw [encrypt_body_getD g _ P L i hi']
  have hp : P.getD i 0 < 256 := by
    apply hbytes
    rw [List.getD_eq_getElem _ _ hi']
    exact List.getElem_mem hi'
  exact xor_mask_levels _ _ _ _ _ hp (level_byte_lt L) (level_byte_lt L1)

/-- Return value of `crypto_decrypt_data` on an envelope written by `crypto_encrypt_data`. -/
theorem decrypt_encrypt_ret (g : Globals) (rand : Nat → Nat) (L L1 : Int) (P : List Nat)
    (hinit : g.INITIALIZED ≠ 0) (hne : P ≠ []) :
    (crypto_decrypt_data g (crypto_encrypt_data g rand (some P) true L).2 true L1).1
      = to_int (to_size_t P.length) := by
  rw [crypto_encrypt_data_eq g rand P L hinit]
  have hbody : (List.range P.length).map (fun i =>
      to_uchar (P.getD i 0 ^^^ g.MASTER_KEY.getD (i % 32) 0 ^^^ (draw_iv rand).getD (i % 16) 0
        ^^^ level_byte L)) ≠ [] := by
    intro h
    have := congrArg List.length h
    simp at this
    exact hne this
  rw [crypto_decrypt_data_append g _ _ L1 hinit (draw_iv_length rand) hbody]
  simp only [List.length_map, List.length_range]

/-- The body loop of `crypto_decrypt_data` after byte `k` of the input was replaced by `v`:
output byte `i` is the old one xored with `E[k] ^ v` when it reads input byte `k`, as its
ciphertext byte (`k = i + 16`) or as its IV byte (`k = i % 16`), and is the old one otherwise. -/
theorem decrypt_body_set_getD (key E : List Nat) (lb k v : Nat) (hv : v < 256)
    (hek : E.getD k 0 < 256) (hkl : k < E.length) (i : Nat) (hi : i < E.length - 16) :
    ((List.range ((E.set k v).length - 16)).map (fun i =>
        to_uchar ((E.set k v).getD (i + 16) 0 ^^^ key.getD (i % 32) 0
          ^^^ ((E.set k v).take 16).getD (i % 16) 0 ^^^ lb))).getD i 0
      = ((List.range (E.length - 16)).map (fun i =>
          to_uchar (E.getD (i + 16) 0 ^^^ key.getD (i % 32) 0
            ^^^ (E.take 16).getD (i % 16) 0 ^^^ lb))).getD i 0
        ^^^ (if k = i + 16 ∨ k = i % 16 then E.getD k 0 ^^^ v else 0) := by
  have h16 : i % 16 < 16 := Nat.mod_lt _ (by norm_num)
  simp only [List.length_set, List.getD_eq_getElem?_getD, List.getElem?_map,
    List.getElem?_range hi, Option.map_some', Option.getD_some]
  simp only [← List.getD_eq_getElem?_getD]
  rw [take_getD_of_lt _ _ _ h16, take_getD_of_lt _ _ _ h16, getD_set _ _ _ _ hkl,
    getD_set _ _ _ _ hkl]
  by_cases hc : k = i + 16
  · have hne : ¬ k = i % 16 := by omega
    rw [if_pos hc, if_neg hne, if_pos (Or.inl hc), ← hc]
    have := xor_mask_replace (E.getD k 0) v
      (key.getD (i % 32) 0 ^^^ E.getD (i % 16) 0 ^^^ lb) hek hv
    simpa only [Nat.xor_assoc] using this
  · rw [if_neg hc]
    by_cases hiv : k = i % 16
    · rw [if_pos hiv, if_pos (Or.inr hiv), ← hiv]
      have := xor_mask_replace (E.getD k 0) v
        (E.getD (i + 16) 0 ^^^ key.getD (i % 32) 0 ^^^ lb) hek hv
      have e1 : E.getD (i + 16) 0 ^^^ key.getD (i % 32) 0 ^^^ v ^^^ lb
          = v ^^^ (E.getD (i + 16) 0 ^^^ key.getD (i % 32) 0 ^^^ lb) := by ac_rfl
      have e2 : E.getD (i + 16) 0 ^^^ key.getD (i % 32) 0 ^^^ E.getD k 0 ^^^ lb
          = E.getD k 0 ^^^ (E.getD (i + 16) 0 ^^^ key.getD (i % 32) 0 ^^^ lb) := by ac_rfl
      rw [e1, e2]
      exact this
    · have hor : ¬ (k = i + 16 ∨ k = i % 16) := by
        intro h
        rcases h with h | h
        · exact hc h
        · exact hiv h
      rw [if_neg hiv, if_neg hor, Nat.xor_zero]

/-! ## The rolling loop of `crypto_compute_hash` -/

theorem hash_step_fst (st : Nat × Nat × List Nat) (d : Nat) : (hash_step st d).1 = st.1 + 1 :=
  rfl

theorem hash_step_length (st : Nat × Nat × List Nat) (d : Nat) :
    (hash_step st d).2.2.length = st.2.2.length := by
  simp [hash_step]

theorem foldl_hash_step_fst (l : List Nat) :
    ∀ st : Nat × Nat × List Nat, (l.foldl hash_step st).1 = st.1 + l.length := by
  induction l with
  | nil => intro st; simp
  | cons d ds ih =>
    intro st
    rw [List.foldl_cons, ih, hash_step_fst, List.length_cons]
    omega

theorem foldl_hash_step_length (l : List Nat) :
    ∀ st : Nat × Nat × List Nat, (l.foldl hash_step st).2.2.length = st.2.2.length := by
  induction l with
  | nil => intro st; simp
  | cons d ds ih =>
    intro st
    rw [List.foldl_cons, ih, hash_step_length]

/-- A run of the loop leaves slot `p` alone when none of its indices is `p` modulo 32. -/
theorem foldl_hash_step_frame (p : Nat) (l : List Nat) :
    ∀ st : Nat × Nat × List Nat, (∀ t, t < l.length → (st.1 + t) % 32 ≠ p) →
      (l.foldl hash_step st).2.2.getD p 0 = st.2.2.getD p 0 := by
  induction l with
  | nil => intro st _; simp
  | cons d ds ih =>
    intro st h
    rw [List.foldl_cons, ih]
    · have h0 : st.1 % 32 ≠ p := by
        have := h 0 (by simp)
        simpa using this
      simp only [hash_step, List.getD_eq_getElem?_getD]
      rw [List.getElem?_set_ne h0]
    · intro t ht
      rw [hash_step_fst]
      have := h (t + 1) (by simp; omega)
      have e : st.1 + 1 + t = st.1 + (t + 1) := by omega
      rw [e]
      exact this

theorem hash_finalize_length (key hash : List Nat) : (hash_finalize key hash).length = 32 := by
  simp [hash_finalize]

theorem hash_finalize_getD (key hash : List Nat) (p : Nat) (hp : p < 32) :
    (hash_finalize key hash).getD p 0 = to_uchar (hash.getD p 0 ^^^ key.getD p 0) := by
  simp [hash_finalize, List.getD_eq_getElem?_getD, hp]

/-- Shape of a `crypto_compute_hash` call that writes. -/
theorem crypto_compute_hash_eq (g : Globals) (d : List Nat) (hinit : g.INITIALIZED ≠ 0) :
    crypto_compute_hash g (some d) true = some (hash_finalize g.MASTER_KEY (hash_loop d).2.2) := by
  simp [crypto_compute_hash, hinit]

/-- The loop over the first `t + 1` bytes is one iteration after the loop over the first `t`. -/
theorem hash_loop_take_succ (D : List Nat) (t : Nat) (ht : t < D.length) :
    hash_loop (D.take (t + 1)) = hash_step (hash_loop (D.take t)) (D.getD t 0) := by
  unfold hash_loop
  rw [List.take_succ, List.foldl_append, List.getElem?_eq_getElem ht,
    List.getD_eq_getElem _ _ ht]
  rfl

theorem hash_loop_fst (D : List Nat) : (hash_loop D).1 = D.length := by
  unfold hash_loop
  rw [foldl_hash_step_fst]
  simp

theorem hash_loop_length (D : List Nat) : (hash_loop D).2.2.length = 32 := by
  unfold hash_loop
  rw [foldl_hash_step_length]
  simp

/-- The rolling update `h = (h << 5) + h + d` on 32 bits is `33 * h + d` modulo `2 ^ 32`. -/
theorem rolling_normal_form (h d : Nat) :
    to_uint (to_uint (to_uint (h <<< 5) + h) + d) = (33 * h + d) % 4294967296 := by
  simp only [to_uint, Nat.shiftLeft_eq]
  norm_num
  omega

theorem pow_two_cases (e : Nat) (he : e < 8) :
    2 ^ e = 1 ∨ 2 ^ e = 2 ∨ 2 ^ e = 4 ∨ 2 ^ e = 8 ∨ 2 ^ e = 16 ∨ 2 ^ e = 32 ∨ 2 ^ e = 64 ∨
      2 ^ e = 128 := by
  interval_cases e <;> simp

theorem ne_iff_odd (x y : Nat) : x % 2 ≠ y % 2 ↔ (x + y) % 2 = 1 := by
  omega

/-- The low `e` bits of the rolling state after an iteration depend only on the low `e` bits of
the state before and of the byte. -/
theorem rolling_low_bits_congr (e h h1 d d1 : Nat) (he : e < 8)
    (hh : h % 2 ^ e = h1 % 2 ^ e) (hd : d % 2 ^ e = d1 % 2 ^ e) :
    to_uint (to_uint (to_uint (h <<< 5) + h) + d) % 2 ^ e
      = to_uint (to_uint (to_uint (h1 <<< 5) + h1) + d1) % 2 ^ e := by
  rw [rolling_normal_form, rolling_normal_form]
  obtain ⟨M, hM⟩ : ∃ M, M = 2 ^ e := ⟨_, rfl⟩
  have hc := pow_two_cases e he
  rw [← hM] at hh hd hc ⊢
  rcases hc with rfl | rfl | rfl | rfl | rfl | rfl | rfl | rfl <;> omega

/-- When two rolling states and two bytes agree in their low `e` bits, the number of the four
that have bit `e` set has the parity of the number of the two next states that have it set. -/
theorem rolling_bit_sum (e h h1 d d1 : Nat) (he : e < 8)
    (hh : h % 2 ^ e = h1 % 2 ^ e) (hd : d % 2 ^ e = d1 % 2 ^ e) :
    ((33 * h + d) % 4294967296 / 2 ^ e + (33 * h1 + d1) % 4294967296 / 2 ^ e) % 2
      = (h / 2 ^ e + h1 / 2 ^ e + d / 2 ^ e + d1 / 2 ^ e) % 2 := by
  obtain ⟨M, hM⟩ : ∃ M, M = 2 ^ e := ⟨_, rfl⟩
  have hc := pow_two_cases e he
  rw [← hM] at hh hd hc ⊢
  rcases hc with rfl | rfl | rfl | rfl | rfl | rfl | rfl | rfl <;> omega

/-- When two rolling states and two bytes agree in their low `e` bits, the states after an
iteration differ in bit `e` exactly when one of the two pairs differs in bit `e` and the other
does not. -/
theorem rolling_bit_flips (e h h1 d d1 : Nat) (he : e < 8)
    (hh : h % 2 ^ e = h1 % 2 ^ e) (hd : d % 2 ^ e = d1 % 2 ^ e) :
    (to_uint (to_uint (to_uint (h <<< 5) + h) + d) / 2 ^ e % 2
        ≠ to_uint (to_uint (to_uint (h1 <<< 5) + h1) + d1) / 2 ^ e % 2) ↔
      ¬ ((h / 2 ^ e % 2 ≠ h1 / 2 ^ e % 2) ↔ (d / 2 ^ e % 2 ≠ d1 / 2 ^ e % 2)) := by
  have hs := rolling_bit_sum e h h1 d d1 he hh hd
  rw [rolling_normal_form, rolling_normal_form, ne_iff_odd, ne_iff_odd, ne_iff_odd, hs]
  omega

/-- Bit `e` of two xors differs exactly when one of the two pairs of operands differs in bit
`e` and the other does not. -/
theorem xor_bit_flips (e a a1 b b1 : Nat) :
    ((a ^^^ b) / 2 ^ e % 2 ≠ (a1 ^^^ b1) / 2 ^ e % 2) ↔
      ¬ ((a / 2 ^ e % 2 ≠ a1 / 2 ^ e % 2) ↔ (b / 2 ^ e % 2 ≠ b1 / 2 ^ e % 2)) := by
  simp only [← Nat.toNat_testBit, Nat.testBit_xor]
  cases a.testBit e <;> cases a1.testBit e <;> cases b.testBit e <;> cases b1.testBit e <;>
    decide

/-- Bit `e < 8` of a value is bit `e` of its low byte. -/
theorem low_byte_bit (e x : Nat) (he : e < 8) : x % 256 / 2 ^ e % 2 = x / 2 ^ e % 2 := by
  obtain ⟨M, hM⟩ : ∃ M, M = 2 ^ e := ⟨_, rfl⟩
  have hc := pow_two_cases e he
  rw [← hM] at hc ⊢
  rcases hc with rfl | rfl | rfl | rfl | rfl | rfl | rfl | rfl <;> omega

/-- Xoring with a value whose low `e` bits are zero keeps the low `e` bits. -/
theorem xor_low_bits (e p x : Nat) (hx : x % 2 ^ e = 0) : (p ^^^ x) % 2 ^ e = p % 2 ^ e := by
  apply Nat.eq_of_testBit_eq
  intro i
  have hx1 := congrArg (fun n => n.testBit i) hx
  simp only [Nat.testBit_mod_two_pow, Nat.zero_testBit] at hx1
  simp only [Nat.testBit_mod_two_pow, Nat.testBit_xor]
  by_cases hi : i < e
  · simp only [hi, decide_True, Bool.true_and] at hx1 ⊢
    rw [hx1]
    simp
  · simp [hi]

/-- A non-zero byte has a lowest set bit. -/
theorem lowest_set_bit : ∀ (n x : Nat), x < 2 ^ n → 0 < x →
    ∃ e, e < n ∧ x % 2 ^ e = 0 ∧ x / 2 ^ e % 2 = 1 := by
  intro n
  induction n with
  | zero =>
    intro x h1 h2
    simp at h1
    omega
  | succ n ih =>
    intro x h1 h2
    by_cases hodd : x % 2 = 1
    · exact ⟨0, by omega, by simp [Nat.mod_one], by simpa using hodd⟩
    · have h3 : x / 2 < 2 ^ n := by
        rw [pow_succ] at h1
        omega
      obtain ⟨e, he, hlow, hbit⟩ := ih (x / 2) h3 (by omega)
      refine ⟨e + 1, by omega, ?_, ?_⟩
      · rw [pow_succ, Nat.mul_comm, Nat.mod_mul, hlow]
        omega
      · rw [pow_succ, Nat.mul_comm, ← Nat.div_div_eq_div_mul]
        exact hbit

/-- One iteration from two states at the same index: bit `e` of slot `p` flips between the two
buffers exactly when the iteration writes slot `p` and the new rolling states differ in bit
`e`. -/
theorem hash_step_slot_bit (e : Nat) (he : e < 8) (st st1 : Nat × Nat × List Nat) (d d1 : Nat)
    (hidx : st1.1 = st.1) (hlen : st.2.2.length = 32) (hlen1 : st1.2.2.length = 32)
    (p : Nat) (hp : p < 32) :
    ((hash_step st d).2.2.getD p 0 / 2 ^ e % 2 ≠ (hash_step st1 d1).2.2.getD p 0 / 2 ^ e % 2) ↔
      ¬ ((st.2.2.getD p 0 / 2 ^ e % 2 ≠ st1.2.2.getD p 0 / 2 ^ e % 2) ↔
        (st.1 % 32 = p ∧
          (hash_step st d).2.1 / 2 ^ e % 2 ≠ (hash_step st1 d1).2.1 / 2 ^ e % 2)) := by
  have hq : st.1 % 32 < st.2.2.length := by rw [hlen]; exact Nat.mod_lt _ (by norm_num)
  have hq1 : st.1 % 32 < st1.2.2.length := by rw [hlen1]; exact Nat.mod_lt _ (by norm_num)
  simp only [hash_step, List.getD_eq_getElem?_getD, hidx]
  by_cases hc : st.1 % 32 = p
  · subst hc
    rw [List.getElem?_set_eq_of_lt _ hq, List.getElem?_set_eq_of_lt _ hq1]
    simp only [Option.getD_some, to_uchar, and_ff, true_and]
    rw [low_byte_bit e _ he, low_byte_bit e _ he, xor_bit_flips, low_byte_bit e _ he,
      low_byte_bit e _ he]
  · rw [List.getElem?_set_ne hc, List.getElem?_set_ne hc]
    simp only [hc, false_and, iff_false, not_not]

/-- Two inputs of the same length whose bytes agree in their low `e` bits have different
digests when their differences in bit `e` leave an odd number of flips in one slot. `S t` says
that the rolling states differ in bit `e` after `t` bytes; index `m` is the first whose
iteration writes slot `m % 32` while they differ, every later iteration on that slot does too,
and the number of these iterations is odd. -/
theorem digest_differs_bit (key D D1 : List Nat) (e m : Nat) (S : Nat → Prop) (he : e < 8)
    (hlen : D1.length = D.length)
    (hlow : ∀ i, i < D.length → D.getD i 0 % 2 ^ e = D1.getD i 0 % 2 ^ e)
    (hS0 : ¬ S 0)
    (hS : ∀ i, i < D.length →
      (S (i + 1) ↔ ¬ (S i ↔ D.getD i 0 / 2 ^ e % 2 ≠ D1.getD i 0 / 2 ^ e % 2)))
    (hslot : ∀ i, i < D.length → i % 32 = m % 32 → (S (i + 1) ↔ m ≤ i))
    (hm : m < D.length) (hodd : (D.length - 1 - m) % 64 < 32) :
    hash_finalize key (hash_loop D).2.2 ≠ hash_finalize key (hash_loop D1).2.2 := by
  have hp : m % 32 < 32 := Nat.mod_lt _ (by norm_num)
  have inv : ∀ t, t ≤ D.length →
      (hash_loop (D.take t)).2.1 % 2 ^ e = (hash_loop (D1.take t)).2.1 % 2 ^ e ∧
      (((hash_loop (D.take t)).2.1 / 2 ^ e % 2 ≠ (hash_loop (D1.take t)).2.1 / 2 ^ e % 2)
        ↔ S t) ∧
      (((hash_loop (D.take t)).2.2.getD (m % 32) 0 / 2 ^ e % 2
          ≠ (hash_loop (D1.take t)).2.2.getD (m % 32) 0 / 2 ^ e % 2)
        ↔ (m < t ∧ (t - 1 - m) % 64 < 32)) := by
    intro t
    induction t with
    | zero =>
      intro _
      rw [List.take_zero, List.take_zero]
      refine ⟨rfl, ?_, ?_⟩
      · simp only [ne_eq, not_true_eq_false, false_iff]
        exact hS0
      · simp
    | succ t ih =>
      intro ht
      obtain ⟨hA, hB, hC⟩ := ih (by omega)
      have ht1 : t < D1.length := by omega
      rw [hash_loop_take_succ D t (by omega), hash_loop_take_succ D1 t ht1]
      have hidx : (hash_loop (D1.take t)).1 = (hash_loop (D.take t)).1 := by
        rw [hash_loop_fst, hash_loop_fst, List.length_take, List.length_take]
        omega
      have hfst : (hash_loop (D.take t)).1 = t := by
        rw [hash_loop_fst, List.length_take]
        omega
      have hB1 : ((hash_step (hash_loop (D.take t)) (D.getD t 0)).2.1 / 2 ^ e % 2
          ≠ (hash_step (hash_loop (D1.take t)) (D1.getD t 0)).2.1 / 2 ^ e % 2) ↔ S (t + 1) := by
        rw [hS t (by omega), ← hB]
        exact rolling_bit_flips e _ _ _ _ he hA (hlow t (by omega))
      refine ⟨rolling_low_bits_congr e _ _ _ _ he hA (hlow t (by omega)), hB1, ?_⟩
      rw [hash_step_slot_bit e he _ _ _ _ hidx (hash_loop_length _) (hash_loop_length _)
        (m % 32) hp, hB1, hC, hfst]
      by_cases hc : t % 32 = m % 32
      · have := hslot t (by omega) hc
        rw [this]
        omega
      · omega
  obtain ⟨_, _, hC⟩ := inv D.length (le_refl _)
  rw [List.take_of_length_le (le_refl _), List.take_of_length_le (by omega)] at hC
  have hbit := hC.mpr ⟨hm, hodd⟩
  intro h
  have h1 := congrArg (fun l => l.getD (m % 32) 0) h
  simp only [hash_finalize_getD _ _ _ hp, to_uchar_xor] at h1
  have h2 := Nat.xor_left_inj.mp h1
  apply hbit
  rw [← low_byte_bit e ((hash_loop D).2.2.getD (m % 32) 0) he,
    ← low_byte_bit e ((hash_loop D1).2.2.getD (m % 32) 0) he]
  simp only [to_uchar] at h2
  rw [h2]

/-- The form of `digest_differs_bit` for a second input that is the first with the bytes at the
indices selected by `c` xored with a non-zero byte `x`. -/
theorem digest_differs_xor (key D D1 : List Nat) (x m : Nat) (c : Nat → Prop) (S : Nat → Prop)
    (hx : 0 < x) (hx256 : x < 256) (hlen : D1.length = D.length)
    (hD1 : ∀ i, i < D.length → (c i → D1.getD i 0 = D.getD i 0 ^^^ x) ∧
      (¬ c i → D1.getD i 0 = D.getD i 0))
    (hS0 : ¬ S 0) (hS : ∀ i, i < D.length → (S (i + 1) ↔ ¬ (S i ↔ c i)))
    (hslot : ∀ i, i < D.length → i % 32 = m % 32 → (S (i + 1) ↔ m ≤ i))
    (hm : m < D.length) (hodd : (D.length - 1 - m) % 64 < 32) :
    hash_finalize key (hash_loop D).2.2 ≠ hash_finalize key (hash_loop D1).2.2 := by
  obtain ⟨e, he, hxlow, hxbit⟩ := lowest_set_bit 8 x (by simpa using hx256) hx
  have hbit : ∀ p, p / 2 ^ e % 2 ≠ (p ^^^ x) / 2 ^ e % 2 := by
    intro p
    have h0 := xor_bit_flips e p p 0 x
    simp only [Nat.xor_zero] at h0
    rw [h0]
    simp only [ne_eq, not_true_eq_false, false_iff, not_not]
    simp only [Nat.zero_div, Nat.zero_mod]
    omega
  apply digest_differs_bit key D D1 e m S he hlen _ hS0 _ hslot hm hodd
  · intro i hi
    by_cases hc : c i
    · rw [(hD1 i hi).1 hc, xor_low_bits e _ x hxlow]
    · rw [(hD1 i hi).2 hc]
  · intro i hi
    rw [hS i hi]
    by_cases hc : c i
    · rw [(hD1 i hi).1 hc]
      simp only [hc, iff_true, hbit (D.getD i 0), ne_eq, not_false_eq_true]
    · rw [(hD1 i hi).2 hc]
      simp only [hc, iff_false, ne_eq, not_true_eq_false]

/-- The digest changes when byte `j` of the input is replaced by a different byte and the number
of bytes from byte `j` to the end is not a multiple of 64: the lowest bit in which the two bytes
differ is then flipped an odd number of times in one slot. -/
theorem digest_differs_set (key D : List Nat) (j b1 : Nat) (hj : j < D.length)
    (hper : (D.length - j) % 64 ≠ 0) (hb : D.getD j 0 < 256) (hb1 : b1 < 256)
    (hne : D.getD j 0 ≠ b1) :
    hash_finalize key (hash_loop D).2.2 ≠ hash_finalize key (hash_loop (D.set j b1)).2.2 := by
  obtain ⟨m, hm1, hm2, hm3, hm4⟩ :
      ∃ m, j ≤ m ∧ m < j + 32 ∧ m < D.length ∧ (D.length - 1 - m) % 64 < 32 :=
    ⟨j + min ((D.length - j) % 64) 32 - 1, by omega, by omega, by omega, by omega⟩
  have hx : 0 < D.getD j 0 ^^^ b1 := by
    rcases Nat.eq_zero_or_pos (D.getD j 0 ^^^ b1) with h | h
    · have h2 : D.getD j 0 ^^^ b1 = b1 ^^^ b1 := by rw [h, Nat.xor_self]
      exact absurd (Nat.xor_left_inj.mp h2) hne
    · exact h
  apply digest_differs_xor key D (D.set j b1) (D.getD j 0 ^^^ b1) m (fun i => i = j)
    (fun i => j < i) hx (xor_lt_256 hb hb1) (List.length_set _ _ _)
  · intro i _
    constructor
    · intro hc
      rw [getD_set _ _ _ _ hj, if_pos hc.symm, hc, ← Nat.xor_assoc, Nat.xor_self,
        Nat.zero_xor]
    · intro hc
      rw [getD_set _ _ _ _ hj, if_neg (fun h => hc h.symm)]
  · omega
  · intro i _
    omega
  · intro i _ _
    omega
  · exact hm3
  · exact hm4

/-- One iteration of the 32-bit loop and one of the 8-bit loop keep the index and the buffer
equal and the 8-bit state equal to the low byte of the 32-bit state. -/
theorem hash_step_low_byte_sim (st st8 : Nat × Nat × List Nat) (d : Nat)
    (h1 : st8.1 = st.1) (h2 : st8.2.1 = st.2.1 % 256) (h3 : st8.2.2 = st.2.2) :
    (hash_step_low_byte st8 d).1 = (hash_step st d).1 ∧
      (hash_step_low_byte st8 d).2.1 = (hash_step st d).2.1 % 256 ∧
      (hash_step_low_byte st8 d).2.2 = (hash_step st d).2.2 := by
  have hs : (33 * st8.2.1 + d) % 256
      = to_uint (to_uint (to_uint (st.2.1 <<< 5) + st.2.1) + d) % 256 := by
    rw [h2]
    simp only [to_uint, Nat.shiftLeft_eq]
    norm_num
    omega
  refine ⟨?_, ?_, ?_⟩
  · simp only [hash_step_low_byte, hash_step, h1]
  · simp only [hash_step_low_byte, hash_step]
    exact hs
  · simp only [hash_step_low_byte, hash_step, h1, h3, hs, and_ff]

theorem foldl_hash_step_low_byte_sim (l : List Nat) :
    ∀ st st8 : Nat × Nat × List Nat,
      st8.1 = st.1 → st8.2.1 = st.2.1 % 256 → st8.2.2 = st.2.2 →
      (l.foldl hash_step_low_byte st8).2.2 = (l.foldl hash_step st).2.2 := by
  induction l with
  | nil => intro st st8 _ _ h3; exact h3
  | cons d ds ih =>
    intro st st8 h1 h2 h3
    rw [List.foldl_cons, List.foldl_cons]
    obtain ⟨a, b, c⟩ := hash_step_low_byte_sim st st8 d h1 h2 h3
    exact ih _ _ a b c

/-! ## The comparison of `crypto_verify_integrity` -/

/-- The comparison loop of `crypto_verify_integrity` accepts two 32-byte buffers exactly when
they are equal. -/
theorem compare_32_iff (a b : List Nat) (ha : a.length = 32) (hb : b.length = 32) :
    (List.range 32).all (fun i => a.getD i 0 == b.getD i 0) = true ↔ a = b := by
  constructor
  · intro h
    rw [List.all_eq_true] at h
    apply List.ext_getElem (by rw [ha, hb])
    intro i h1 h2
    have := h i (List.mem_range.mpr (by omega))
    simpa [List.getD_eq_getElem?_getD, h1, h2] using this
  · intro h
    subst h
    simp

/-- On an initialised engine `crypto_verify_integrity` returns 1 when the 32 stored bytes are
the recomputed digest and 0 otherwise. -/
theorem crypto_verify_integrity_eq (g : Globals) (d stored : List Nat)
    (hinit : g.INITIALIZED ≠ 0) (hlen : stored.length = 32) :
    crypto_verify_integrity g (some d) (some stored)
      = if hash_finalize g.MASTER_KEY (hash_loop d).2.2 = stored then 1 else 0 := by
  unfold crypto_verify_integrity
  simp only [hinit, if_false, crypto_compute_hash_eq g d hinit]
  by_cases h : hash_finalize g.MASTER_KEY (hash_loop d).2.2 = stored
  · rw [if_pos h, if_pos ((compare_32_iff _ _ (hash_finalize_length _ _) hlen).mpr h)]
  · rw [if_neg h, if_neg (fun hc => h ((compare_32_iff _ _ (hash_finalize_length _ _) hlen).mp hc))]

/-! ## Hexadecimal output -/

theorem hex_digit_mem (n : Nat) : hex_digit n ∈ "0123456789abcdef".toList := by
  unfold hex_digit
  by_cases h : n < 16
  · interval_cases n <;> decide
  · rw [List.getD_eq_default _ _ (by simpa using Nat.le_of_not_lt h)]
    decide

theorem hex_digit_ne_dash (n : Nat) : hex_digit n ≠ '-' := by
  intro h
  have := hex_digit_mem n
  rw [h] at this
  revert this
  decide

theorem hex_digit_inj : ∀ a, a < 16 → ∀ b, b < 16 → hex_digit a = hex_digit b → a = b := by
  decide

/-- Shape of a `crypto_hash_to_string` call that writes. -/
theorem crypto_hash_to_string_eq (h : List Nat) :
    crypto_hash_to_string (some h) true
      = some (((List.range 32).map (fun i =>
          [hex_digit (h.getD i 0 / 16), hex_digit (h.getD i 0 % 16)])).flatten) := by
  simp [crypto_hash_to_string, fmt_02x]

theorem random_loop_length (n : Nat) : ∀ seed, (random_loop n seed).length = n := by
  induction n with
  | zero => intro seed; rfl
  | succ k ih => intro seed; simp [random_loop, ih]

theorem random_loop_lt (n : Nat) : ∀ seed, ∀ b ∈ random_loop n seed, b < 256 := by
  induction n with
  | zero => intro seed b hb; simp [random_loop] at hb
  | succ k ih =>
    intro seed b hb
    simp only [random_loop, List.mem_cons] at hb
    rcases hb with rfl | hb
    · exact to_uchar_lt _
    · exact ih _ b hb

theorem format_uuid_append (bs : List Nat) :
    format_uuid bs =
      fmt_02x (bs.getD 0 0) ++ fmt_02x (bs.getD 1 0) ++ fmt_02x (bs.getD 2 0)
        ++ fmt_02x (bs.getD 3 0) ++ ['-'] ++ fmt_02x (bs.getD 4 0) ++ fmt_02x (bs.getD 5 0)
        ++ ['-'] ++ fmt_02x (bs.getD 6 0) ++ fmt_02x (bs.getD 7 0) ++ ['-']
        ++ fmt_02x (bs.getD 8 0) ++ fmt_02x (bs.getD 9 0) ++ ['-'] ++ fmt_02x (bs.getD 10 0)
        ++ fmt_02x (bs.getD 11 0) ++ fmt_02x (bs.getD 12 0) ++ fmt_02x (bs.getD 13 0)
        ++ fmt_02x (bs.getD 14 0) ++ fmt_02x (bs.getD 15 0) := rfl

/-- The 36 characters `generate_file_id` prints, spelled out. -/
theorem format_uuid_eq (bs : List Nat) :
    format_uuid bs =
      [hex_digit (bs.getD 0 0 / 16), hex_digit (bs.getD 0 0 % 16),
        hex_digit (bs.getD 1 0 / 16), hex_digit (bs.getD 1 0 % 16),
        hex_digit (bs.getD 2 0 / 16), hex_digit (bs.getD 2 0 % 16),
        hex_digit (bs.getD 3 0 / 16), hex_digit (bs.getD 3 0 % 16), '-',
        hex_digit (bs.getD 4 0 / 16), hex_digit (bs.getD 4 0 % 16),
        hex_digit (bs.getD 5 0 / 16), hex_digit (bs.getD 5 0 % 16), '-',
        hex_digit (bs.getD 6 0 / 16), hex_digit (bs.getD 6 0 % 16),
        hex_digit (bs.getD 7 0 / 16), hex_digit (bs.getD 7 0 % 16), '-',
        hex_digit (bs.getD 8 0 / 16), hex_digit (bs.getD 8 0 % 16),
        hex_digit (bs.getD 9 0 / 16), hex_digit (bs.getD 9 0 % 16), '-',
        hex_digit (bs.getD 10 0 / 16), hex_digit (bs.getD 10 0 % 16),
        hex_digit (bs.getD 11 0 / 16), hex_digit (bs.getD 11 0 % 16),
        hex_digit (bs.getD 12 0 / 16), hex_digit (bs.getD 12 0 % 16),
        hex_digit (bs.getD 13 0 / 16), hex_digit (bs.getD 13 0 % 16),
        hex_digit (bs.getD 14 0 / 16), hex_digit (bs.getD 14 0 % 16),
        hex_digit (bs.getD 15 0 / 16), hex_digit (bs.getD 15 0 % 16)] := by
  rw [format_uuid_append]
  simp only [List.append_assoc]
  simp only [fmt_02x]
  simp only [List.cons_append]
  simp only [List.nil_append]

/-- Shape of the string `generate_file_id` prints from any 16 bytes. -/
theorem format_uuid_shape (bs : List Nat) :
    (format_uuid bs).length = 36 ∧
      (∀ i, i < 36 →
        if i = 8 ∨ i = 13 ∨ i = 18 ∨ i = 23 then (format_uuid bs).getD i ' ' = '-'
        else (format_uuid bs).getD i ' ' ∈ "0123456789abcdef".toList) ∧
      (format_uuid bs).filter (fun c => c != '-')
        = ((List.range 16).map (fun j =>
            [hex_digit (bs.getD j 0 / 16), hex_digit (bs.getD j 0 % 16)])).flatten := by
  have hr : List.range 16 = [0, 1, 2, 3, 4, 5, 6, 7, 8, 9, 10, 11, 12, 13, 14, 15] := by decide
  have hf : ∀ (n : Nat) (l : List Char),
      (hex_digit n :: l).filter (fun c => c != '-') = hex_digit n :: l.filter (fun c => c != '-') := by
    intro n l
    rw [List.filter_cons_of_pos]
    simpa using hex_digit_ne_dash n
  have hd : ∀ l : List Char,
      ('-' :: l).filter (fun c => c != '-') = l.filter (fun c => c != '-') := by
    intro l
    rw [List.filter_cons_of_neg]
    simp
  rw [format_uuid_eq]
  refine ⟨rfl, ?_, ?_⟩
  · intro i hi
    interval_cases i
    all_goals first
      | exact hex_digit_mem _
      | rfl
  · rw [hr]
    simp only [hf, hd, List.filter_nil, List.map_cons, List.map_nil, List.flatten_cons,
      List.flatten_nil, List.cons_append, List.nil_append]

/-! ## Storage operations -/

theorem dummy_encrypted_getD (m i : Nat) (h : i < m) :
    (dummy_encrypted m).getD i 0 = i % 256 := by
  unfold dummy_encrypted
  simp [List.getD_eq_getElem?_getD, h, and_ff, to_uchar]

theorem dummy_encrypted_length (m : Nat) : (dummy_encrypted m).length = m := by
  simp [dummy_encrypted]

/-- The bytes `storage_retrieve_file` hands back: the decryption of its placeholder
ciphertext. -/
theorem decrypt_dummy (g : Globals) (hinit : g.INITIALIZED ≠ 0) :
    crypto_decrypt_data g (some (dummy_encrypted 1040)) true SECURITY_LEVEL_ENHANCED =
      (1024, some ((List.range 1024).map (fun i =>
        to_uchar ((i + 16) % 256 ^^^ g.MASTER_KEY.getD (i % 32) 0 ^^^ i % 16 ^^^ 2)))) := by
  have hmap : (List.range 1024).map (fun i =>
        to_uchar ((dummy_encrypted 1040).getD (i + 16) 0 ^^^ g.MASTER_KEY.getD (i % 32) 0
          ^^^ ((dummy_encrypted 1040).take 16).getD (i % 16) 0
          ^^^ level_byte SECURITY_LEVEL_ENHANCED))
      = (List.range 1024).map (fun i =>
        to_uchar ((i + 16) % 256 ^^^ g.MASTER_KEY.getD (i % 32) 0 ^^^ i % 16 ^^^ 2)) := by
    apply List.map_congr_left
    intro i hi
    have hi' : i < 1024 := List.mem_range.mp hi
    have h16 : i % 16 < 16 := Nat.mod_lt _ (by norm_num)
    rw [take_getD_of_lt _ _ _ h16, dummy_encrypted_getD _ _ (by omega),
      dummy_encrypted_getD _ _ (by omega)]
    have e1 : i % 16 % 256 = i % 16 := Nat.mod_eq_of_lt (by omega)
    have e2 : level_byte SECURITY_LEVEL_ENHANCED = 2 := by decide
    rw [e1, e2]
  rw [crypto_decrypt_data_eq g _ _ hinit (by rw [dummy_encrypted_length]; norm_num)]
  rw [dummy_encrypted_length]
  have e : (1040 : Nat) - 16 = 1024 := by norm_num
  rw [e, to_int_of_lt (by norm_num), hmap]
  rfl

/-- The masked placeholder byte of `storage_retrieve_file` is below 256 without a cast. -/
theorem retrieved_byte_eq (key : List Nat) (hkey : ∀ b ∈ key, b < 256) (i : Nat) :
    to_uchar ((i + 16) % 256 ^^^ key.getD (i % 32) 0 ^^^ i % 16 ^^^ 2)
      = (i + 16) % 256 ^^^ key.getD (i % 32) 0 ^^^ i % 16 ^^^ 2 := by
  apply to_uchar_of_lt
  have h1 : (i + 16) % 256 < 256 := Nat.mod_lt _ (by norm_num)
  have h2 : i % 16 < 256 := by omega
  exact xor_lt_256 (xor_lt_256 (xor_lt_256 h1 (getD_lt_of_forall key hkey _)) h2) (by norm_num)

/-- Result of `storage_retrieve_file` once both subsystems are initialised, the id fits the
metadata field, the pointers are not `NULL` and both allocations succeed. -/
theorem storage_retrieve_file_eq (g : Globals) (w : World) (file_id : List Char) (nm : Bool)
    (n : Nat) (hs : g.STORAGE_INITIALIZED ≠ 0) (hinit : g.INITIALIZED ≠ 0)
    (hid : file_id.length ≤ 36)
    (hm0 : w.malloc_ok 0 = true) (hm1 : w.malloc_ok 1 = true) :
    storage_retrieve_file g w (some file_id) true true nm n =
      some { ret := 1,
             output_data := some (some ((List.range 1024).map (fun i =>
               to_uchar ((i + 16) % 256 ^^^ g.MASTER_KEY.getD (i % 32) 0 ^^^ i % 16 ^^^ 2)))),
             output_size := some 1024,
             original_name :=
               if nm = true ∧ n > 0 then some ("example.pdf".toList.take (n - 1))
               else none } := by
  have hid1 : ¬ 36 < file_id.length := by omega
  have e : to_size_t (1024 + 16) = 1040 := by decide
  have hd := decrypt_dummy g hinit
  obtain ⟨bytes, hb⟩ : ∃ b, b = (List.range 1024).map (fun i =>
      to_uchar ((i + 16) % 256 ^^^ g.MASTER_KEY.getD (i % 32) 0 ^^^ i % 16 ^^^ 2)) := ⟨_, rfl⟩
  rw [← hb] at hd
  rw [← hb]
  unfold storage_retrieve_file
  simp only [e, hd, hs, hm0, hm1, hid1]
  simp

/-- A successful `storage_store_file` call means both subsystems are initialised. -/
theorem store_some_initialized (g : Globals) (w : World) (data : List Nat) (name : List Char)
    (L : Int) (id : List Char)
    (h : storage_store_file g w (some data) (some name) L = some id) :
    g.STORAGE_INITIALIZED ≠ 0 ∧ g.INITIALIZED ≠ 0 := by
  unfold storage_store_file at h
  constructor
  · intro h0
    simp [h0] at h
  · intro h0
    simp [crypto_encrypt_data, h0] at h

/-- Result of `storage_store_file` once both subsystems are initialised, the allocation
succeeds and `file_size + 16` fits an `int`: the id printed from the generator seeded with the
clock. -/
theorem storage_store_file_eq (g : Globals) (w : World) (P : List Nat) (name : List Char)
    (L : Int) (hs : g.STORAGE_INITIALIZED ≠ 0) (hinit : g.INITIALIZED ≠ 0)
    (hm : w.malloc_ok 0 = true) (hlen : P.length + 16 < 2 ^ 31) :
    storage_store_file g w (some P) (some name) L
      = some (format_uuid (random_loop 16 (int_to_uint (w.time 0)))) := by
  have hr : ¬ (crypto_encrypt_data g w.rand (some P) true L).1 < 0 := by
    rw [crypto_encrypt_data_eq g w.rand P L hinit, to_int_of_lt hlen]
    simp only [not_lt]
    exact Int.ofNat_nonneg _
  unfold storage_store_file
  simp only [hs, hm, hr]
  simp [store_metadata, generate_file_id, crypto_generate_random, hinit]

/-- The id of a successful `storage_store_file` call is printed from the generator seeded
with the clock. -/
theorem store_some_id (g : Globals) (w : World) (file_data : Option (List Nat))
    (original_name : Option (List Char)) (L : Int) (id : List Char)
    (h : storage_store_file g w file_data original_name L = some id) :
    id = format_uuid (random_loop 16 (int_to_uint (w.time 0))) := by
  cases file_data with
  | none => simp [storage_store_file] at h
  | some data =>
    cases original_name with
    | none => simp [storage_store_file] at h
    | some name =>
      obtain ⟨_, hinit⟩ := store_some_initialized g w data name L id h
      unfold storage_store_file at h
      simp only [] at h
      split at h
      · exact absurd h (by simp)
      · split at h
        · exact absurd h (by simp)
        · split at h
          · exact absurd h (by simp)
          · have h1 := Option.some.inj h
            rw [← h1]
            simp [store_metadata, generate_file_id, crypto_generate_random, hinit]

/-- Calls of `storage_store_file` and `storage_delete_file` leave every file-scope variable as
it was. -/
theorem run_store_delete (calls : List Call) :
    ∀ g : Globals, (∀ c ∈ calls, c.is_store_or_delete = true) → run g calls = g := by
  induction calls with
  | nil => intro g _; rfl
  | cons c cs ih =>
    intro g h
    have hc := h c (by simp)
    have hcs : ∀ x ∈ cs, x.is_store_or_delete = true := fun x hx => h x (by simp [hx])
    unfold run at ih ⊢
    rw [List.foldl_cons]
    cases c with
    | store w fd nm L => exact ih g hcs
    | delete id => exact ih g hcs
    | init w p => simp [Call.is_store_or_delete] at hc
    | cleanup => simp [Call.is_store_or_delete] at hc
    | retrieve w id od os nm n => simp [Call.is_store_or_delete] at hc
    | verify id => simp [Call.is_store_or_delete] at hc

/-- Each storage-level call keeps the two implications between the flags and the key. -/
theorem apply_keeps_lifecycle (g : Globals) (c : Call)
    (h1 : g.STORAGE_INITIALIZED ≠ 0 → g.INITIALIZED ≠ 0)
    (h2 : g.INITIALIZED = 0 → g.MASTER_KEY = List.replicate 32 0) :
    ((Call.apply g c).STORAGE_INITIALIZED ≠ 0 → (Call.apply g c).INITIALIZED ≠ 0) ∧
      ((Call.apply g c).INITIALIZED = 0 → (Call.apply g c).MASTER_KEY = List.replicate 32 0) := by
  cases c with
  | store w fd nm L => exact ⟨h1, h2⟩
  | retrieve w id od os nm n => exact ⟨h1, h2⟩
  | delete id => exact ⟨h1, h2⟩
  | verify id => exact ⟨h1, h2⟩
  | init w p =>
    by_cases hs : g.STORAGE_INITIALIZED = 0
    · simp only [Call.apply, storage_init, crypto_init]
      by_cases hi : g.INITIALIZED = 0
      · simp [hs, hi]
      · simp [hs, hi]
    · have e : Call.apply g (Call.init w p) = g := by
        simp [Call.apply, storage_init, hs]
      rw [e]
      exact ⟨h1, h2⟩
  | cleanup =>
    by_cases hs : g.STORAGE_INITIALIZED = 0
    · have e : Call.apply g Call.cleanup = g := by
        simp [Call.apply, storage_cleanup, hs]
      rw [e]
      exact ⟨h1, h2⟩
    · simp only [Call.apply, storage_cleanup, crypto_cleanup]
      by_cases hi : g.INITIALIZED = 0
      · simp [hs, hi, h2 hi]
      · simp [hs, hi]

theorem run_keeps_lifecycle (calls : List Call) :
    ∀ g : Globals, (g.STORAGE_INITIALIZED ≠ 0 → g.INITIALIZED ≠ 0) →
      (g.INITIALIZED = 0 → g.MASTER_KEY = List.replicate 32 0) →
      ((run g calls).STORAGE_INITIALIZED ≠ 0 → (run g calls).INITIALIZED ≠ 0) ∧
        ((run g calls).INITIALIZED = 0 → (run g calls).MASTER_KEY = List.replicate 32 0) := by
  induction calls with
  | nil => intro g h1 h2; exact ⟨h1, h2⟩
  | cons c cs ih =>
    intro g h1 h2
    obtain ⟨a, b⟩ := apply_keeps_lifecycle g c h1 h2
    exact ih (Call.apply g c) a b

/-! ## C1: store/retrieve round trip -/

/-- C1 fails. In the ready state, storing the one-byte file `[1]` under the name `a` at level 1
returns an id, and retrieving that id succeeds with 1024 bytes and the name `example.pdf`,
not with `[1]` and `a`. -/
theorem round_trip_counterexample :
    storage_store_file Globals.ready World.sample (some [1]) (some ['a']) 1
        = some "2b435987-73ab-74de-bc44-e2ede4afa7c5".toList ∧
      (storage_retrieve_file Globals.ready World.sample
          (some "2b435987-73ab-74de-bc44-e2ede4afa7c5".toList) true true true 256).map
          RetrieveResult.ret = some 1 ∧
      (storage_retrieve_file Globals.ready World.sample
          (some "2b435987-73ab-74de-bc44-e2ede4afa7c5".toList) true true true 256).map
          RetrieveResult.output_data ≠ some (some (some [1])) ∧
      (storage_retrieve_file Globals.ready World.sample
          (some "2b435987-73ab-74de-bc44-e2ede4afa7c5".toList) true true true 256).map
          RetrieveResult.output_size = some (some 1024) ∧
      (storage_retrieve_file Globals.ready World.sample
          (some "2b435987-73ab-74de-bc44-e2ede4afa7c5".toList) true true true 256).map
          RetrieveResult.original_name = some (some "example.pdf".toList) := by
  decide

/-- C1 (amended). If `storage_store_file(P, name, L)` returns `id`, then
`storage_retrieve_file(id)`, called with non-`NULL` pointers and with both allocations
succeeding, returns 1, but nothing it hands back comes from the store: `output_size` is 1024,
byte `i` of the output is `((i + 16) mod 256) xor key[i mod 32] xor (i mod 16) xor 2`, and the
name is `example.pdf` cut to `name_buffer_size - 1` characters, whatever `P`, `name` and `L`
were. -/
theorem retrieve_after_store (g : Globals) (w w1 : World) (P : List Nat) (name : List Char)
    (L : Int) (id : List Char) (n : Nat)
    (hstore : storage_store_file g w (some P) (some name) L = some id)
    (hm0 : w1.malloc_ok 0 = true) (hm1 : w1.malloc_ok 1 = true) :
    storage_retrieve_file g w1 (some id) true true true n =
      some { ret := 1,
             output_data := some (some ((List.range 1024).map (fun i =>
               to_uchar ((i + 16) % 256 ^^^ g.MASTER_KEY.getD (i % 32) 0 ^^^ i % 16 ^^^ 2)))),
             output_size := some 1024,
             original_name :=
               if 0 < n then some ("example.pdf".toList.take (n - 1)) else none } := by
  obtain ⟨hs, hinit⟩ := store_some_initialized g w P name L id hstore
  have hid : id.length ≤ 36 := by
    rw [store_some_id g w (some P) (some name) L id hstore, (format_uuid_shape _).1]
  rw [storage_retrieve_file_eq g w1 id true n hs hinit hid hm0 hm1]
  simp only [true_and, gt_iff_lt]

/-- Witness for the amended C1: the store of `[1]` under `a` followed by a retrieve with a
256-byte name buffer. -/
theorem retrieve_after_store_witness :
    storage_retrieve_file Globals.ready World.sample
        (some "2b435987-73ab-74de-bc44-e2ede4afa7c5".toList) true true true 256 =
      some { ret := 1,
             output_data := some (some ((List.range 1024).map (fun i =>
               to_uchar ((i + 16) % 256 ^^^ Globals.ready.MASTER_KEY.getD (i % 32) 0 ^^^ i % 16
                 ^^^ 2)))),
             output_size := some 1024,
             original_name :=
               if 0 < 256 then some ("example.pdf".toList.take (256 - 1)) else none } :=
  retrieve_after_store Globals.ready World.sample World.sample [1] ['a'] 1
    "2b435987-73ab-74de-bc44-e2ede4afa7c5".toList 256 (by decide) (by decide) (by decide)

/-! ## C2: decrypt undoes encrypt -/

/-- C2. On an initialised engine, for every master key, every IV drawn by the call (every
`rand`), every level and every non-empty plaintext `P` of bytes with `P.length + 16`
representable as `int`, `crypto_encrypt_data` returns `P.length + 16`, and
`crypto_decrypt_data` applied to the envelope it wrote, with the same level, returns `P.length`
and writes exactly `P`. -/
theorem decrypt_undoes_encrypt (g : Globals) (rand : Nat → Nat) (L : Int) (P : List Nat)
    (hinit : g.INITIALIZED ≠ 0) (hbytes : ∀ b ∈ P, b < 256) (hne : P ≠ [])
    (hlen : P.length + 16 < 2 ^ 31) :
    (crypto_encrypt_data g rand (some P) true L).1 = ((P.length + 16 : Nat) : Int) ∧
      crypto_decrypt_data g (crypto_encrypt_data g rand (some P) true L).2 true L
        = ((P.length : Int), some P) := by
  rw [crypto_encrypt_data_eq g rand P L hinit]
  refine ⟨to_int_of_lt hlen, ?_⟩
  have hbody : (List.range P.length).map (fun i =>
      to_uchar (P.getD i 0 ^^^ g.MASTER_KEY.getD (i % 32) 0 ^^^ (draw_iv rand).getD (i % 16) 0
        ^^^ level_byte L)) ≠ [] := by
    intro h
    have := congrArg List.length h
    simp at this
    exact hne this
  rw [crypto_decrypt_data_append g _ _ L hinit (draw_iv_length rand) hbody]
  simp only [List.length_map, List.length_range]
  rw [to_int_of_lt (by omega)]
  congr 2
  conv_rhs => rw [← map_getD_range P]
  apply List.map_congr_left
  intro i hi
  have hi' : i < P.length := List.mem_range.mp hi
  rw [encrypt_body_getD g _ P L i hi']
  apply xor_mask_cancel
  apply hbytes
  rw [List.getD_eq_getElem?_getD, List.getElem?_eq_getElem hi']
  simp

/-- Witness for C2 on the three-byte plaintext `[1, 2, 3]` at level 1. -/
theorem decrypt_undoes_encrypt_witness :
    (crypto_encrypt_data Globals.ready World.sample.rand (some [1, 2, 3]) true 1).1 = 19 ∧
      crypto_decrypt_data Globals.ready
        (crypto_encrypt_data Globals.ready World.sample.rand (some [1, 2, 3]) true 1).2 true 1
        = (3, some [1, 2, 3]) :=
  decrypt_undoes_encrypt Globals.ready World.sample.rand 1 [1, 2, 3] (by decide) (by decide)
    (by decide) (by decide)

/-! ## C3: tampering with an envelope -/

/-- C3 fails. Each of these changes gives a different envelope that still passes the verify
pipeline: replacing IV byte 1 of the envelope of the one-byte plaintext `[65]` by another value;
flipping the top bit of the first ciphertext byte of the envelope of the 64-byte plaintext
`0, 1, ..., 63`; flipping the top bit of IV byte 0 of the envelope of the 48-byte plaintext
`0, 1, ..., 47`. -/
theorem tamper_counterexample :
    (tamper (crypto_encrypt_data Globals.ready World.sample.rand (some [65]) true 1).2 1 11
        ≠ (crypto_encrypt_data Globals.ready World.sample.rand (some [65]) true 1).2 ∧
      crypto_verify_integrity Globals.ready
        (crypto_decrypt_data Globals.ready
          (tamper (crypto_encrypt_data Globals.ready World.sample.rand (some [65]) true 1).2
            1 11) true 1).2
        (crypto_compute_hash Globals.ready (some [65]) true) = 1) ∧
    (tamper (crypto_encrypt_data Globals.ready World.sample.rand (some (List.range 64))
          true 1).2 16 129
        ≠ (crypto_encrypt_data Globals.ready World.sample.rand (some (List.range 64)) true 1).2 ∧
      crypto_verify_integrity Globals.ready
        (crypto_decrypt_data Globals.ready
          (tamper (crypto_encrypt_data Globals.ready World.sample.rand (some (List.range 64))
            true 1).2 16 129) true 1).2
        (crypto_compute_hash Globals.ready (some (List.range 64)) true) = 1) ∧
    (tamper (crypto_encrypt_data Globals.ready World.sample.rand (some (List.range 48))
          true 1).2 0 131
        ≠ (crypto_encrypt_data Globals.ready World.sample.rand (some (List.range 48)) true 1).2 ∧
      crypto_verify_integrity Globals.ready
        (crypto_decrypt_data Globals.ready
          (tamper (crypto_encrypt_data Globals.ready World.sample.rand (some (List.range 48))
            true 1).2 0 131) true 1).2
        (crypto_compute_hash Globals.ready (some (List.range 48)) true) = 1) := by
  decide

/-- C3 (amended). On an initialised engine, for every plaintext `P` of bytes, level `L` and
envelope `E` written by `crypto_encrypt_data(P, L)`, replacing byte `k` of `E` by a different
byte value is reported by the verify pipeline, i.e.
`crypto_verify_integrity(crypto_decrypt_data(E1, L), crypto_compute_hash(P))` returns 0 for the
changed envelope `E1`, when byte `k` is a ciphertext byte and the number of bytes from byte `k`
to the end of `E` is not a multiple of 64 (as for each of the last 63 ciphertext bytes), or
when byte `k` is IV byte `k` of a plaintext longer than `k` bytes and `(length(P) - k) mod 64`
lies in 1..47 (as for every plaintext of `k + 1` to `k + 47` bytes). -/
theorem tamper_detected (g : Globals) (rand : Nat → Nat) (L : Int) (P : List Nat) (k v : Nat)
    (hinit : g.INITIALIZED ≠ 0) (hbytes : ∀ b ∈ P, b < 256) (hv : v < 256)
    (hk : (16 ≤ k ∧ k < P.length + 16 ∧ (P.length + 16 - k) % 64 ≠ 0)
      ∨ (k < 16 ∧ k < P.length ∧ (P.length - k) % 64 ≠ 0 ∧ (P.length - k) % 64 < 48))
    (hdiff : tamper (crypto_encrypt_data g rand (some P) true L).2 k v
      ≠ (crypto_encrypt_data g rand (some P) true L).2) :
    crypto_verify_integrity g
        (crypto_decrypt_data g (tamper (crypto_encrypt_data g rand (some P) true L).2 k v)
          true L).2
        (crypto_compute_hash g (some P) true) = 0 := by
  have hne : P ≠ [] := by
    intro h
    subst h
    simp only [List.length_nil] at hk
    omega
  have hround := decrypt_encrypt_levels g rand L L P hinit hbytes hne
  rw [crypto_encrypt_data_eq g rand P L hinit] at hdiff hround ⊢
  obtain ⟨E, hE⟩ : ∃ E, E = draw_iv rand ++ (List.range P.length).map (fun i =>
      to_uchar (P.getD i 0 ^^^ g.MASTER_KEY.getD (i % 32) 0 ^^^ (draw_iv rand).getD (i % 16) 0
        ^^^ level_byte L)) := ⟨_, rfl⟩
  have hek : E.getD k 0 < 256 := by
    rw [hE]; exact envelope_getD_lt g rand P L k
  have hElen : E.length = P.length + 16 := by
    rw [hE, List.length_append, draw_iv_length]
    simp
    omega
  simp only [← hE] at hdiff hround ⊢
  have hlen : 16 < E.length := by
    rw [hElen]
    have := List.length_pos.mpr hne
    omega
  have hkl : k < E.length := by
    rw [hElen]
    omega
  have hvne : E.getD k 0 ≠ v := by
    intro h
    apply hdiff
    simp only [tamper, Option.map_some']
    rw [← h, set_getD_self]
  have hmask : P.map (fun p => p ^^^ (level_byte L ^^^ level_byte L)) = P := by
    simp
  rw [crypto_decrypt_data_eq g E L hinit hlen, hmask] at hround
  have hdec : (List.range (E.length - 16)).map (fun i =>
      to_uchar (E.getD (i + 16) 0 ^^^ g.MASTER_KEY.getD (i % 32) 0
        ^^^ (E.take 16).getD (i % 16) 0 ^^^ level_byte L)) = P := Option.some.inj hround
  obtain ⟨D1, hD1⟩ : ∃ D1, D1 = (List.range ((E.set k v).length - 16)).map (fun i =>
      to_uchar ((E.set k v).getD (i + 16) 0 ^^^ g.MASTER_KEY.getD (i % 32) 0
        ^^^ ((E.set k v).take 16).getD (i % 16) 0 ^^^ level_byte L)) := ⟨_, rfl⟩
  have hD1len : D1.length = P.length := by
    rw [hD1, List.length_map, List.length_range, List.length_set, hElen]
    omega
  have hget : ∀ i, i < P.length → D1.getD i 0
      = P.getD i 0 ^^^ (if k = i + 16 ∨ k = i % 16 then E.getD k 0 ^^^ v else 0) := by
    intro i hi
    rw [hD1, decrypt_body_set_getD g.MASTER_KEY E (level_byte L) k v hv hek hkl i (by omega),
      hdec]
  have hx : 0 < E.getD k 0 ^^^ v := by
    rcases Nat.eq_zero_or_pos (E.getD k 0 ^^^ v) with h | h
    · have h2 : E.getD k 0 ^^^ v = v ^^^ v := by rw [h, Nat.xor_self]
      exact absurd (Nat.xor_left_inj.mp h2) hvne
    · exact h
  have hxor : ∀ i, i < P.length →
      ((k = i + 16 ∨ k = i % 16) → D1.getD i 0 = P.getD i 0 ^^^ (E.getD k 0 ^^^ v)) ∧
      (¬ (k = i + 16 ∨ k = i % 16) → D1.getD i 0 = P.getD i 0) := by
    intro i hi
    constructor
    · intro hc
      rw [hget i hi, if_pos hc]
    · intro hc
      rw [hget i hi, if_neg hc, Nat.xor_zero]
  obtain ⟨S, m, hS0, hS, hslot, hm, hodd⟩ : ∃ (S : Nat → Prop) (m : Nat), ¬ S 0 ∧
      (∀ i, i < P.length → (S (i + 1) ↔ ¬ (S i ↔ (k = i + 16 ∨ k = i % 16)))) ∧
      (∀ i, i < P.length → i % 32 = m % 32 → (S (i + 1) ↔ m ≤ i)) ∧
      m < P.length ∧ (P.length - 1 - m) % 64 < 32 := by
    rcases hk with h | h
    · refine ⟨fun i => k - 16 < i, k - 16 + min ((P.length + 16 - k) % 64) 32 - 1,
        ?_, ?_, ?_, ?_, ?_⟩
      · beta_reduce
        omega
      · intro i _
        beta_reduce
        omega
      · intro i _ _
        beta_reduce
        omega
      · omega
      · omega
    · refine ⟨fun i => k < i ∧ (i - 1 - k) % 32 < 16, k + min ((P.length - k) % 64) 16 - 1,
        ?_, ?_, ?_, ?_, ?_⟩
      · beta_reduce
        omega
      · intro i _
        beta_reduce
        omega
      · intro i _ _
        beta_reduce
        omega
      · omega
      · omega
  simp only [tamper, Option.map_some']
  rw [crypto_decrypt_data_eq g (E.set k v) L hinit (by rw [List.length_set]; exact hlen)]
  simp only []
  rw [← hD1, crypto_compute_hash_eq g P hinit,
    crypto_verify_integrity_eq g _ _ hinit (hash_finalize_length _ _)]
  rw [if_neg (Ne.symm (digest_differs_xor g.MASTER_KEY P D1 (E.getD k 0 ^^^ v) m
    (fun i => k = i + 16 ∨ k = i % 16) S hx (xor_lt_256 hek hv) hD1len hxor hS0 hS hslot hm
    hodd))]

/-- Witness for the amended C3: IV byte 0 of the envelope of the 70-byte plaintext
`0, 1, ..., 69` replaced by 200. -/
theorem tamper_detected_witness :
    crypto_verify_integrity Globals.ready
        (crypto_decrypt_data Globals.ready
          (tamper (crypto_encrypt_data Globals.ready World.sample.rand (some (List.range 70))
            true 1).2 0 200) true 1).2
        (crypto_compute_hash Globals.ready (some (List.range 70)) true) = 0 :=
  tamper_detected Globals.ready World.sample.rand 1 (List.range 70) 0 200 (by decide)
    (by decide) (by decide) (by decide) (by decide)

/-! ## C4: deletion finality -/

/-- C4 fails. In the ready state `storage_delete_file` succeeds on an id, and afterwards
`storage_retrieve_file` and `storage_verify_integrity` on the same id both return 1. -/
theorem deletion_finality_counterexample :
    storage_delete_file Globals.ready (some "2b435987-73ab-74de-bc44-e2ede4afa7c5".toList) = 1 ∧
      (storage_retrieve_file Globals.ready World.sample
          (some "2b435987-73ab-74de-bc44-e2ede4afa7c5".toList) true true true 256).map
          RetrieveResult.ret = some 1 ∧
      storage_verify_integrity Globals.ready
          (some "2b435987-73ab-74de-bc44-e2ede4afa7c5".toList) = 1 := by
  decide

/-- C4 (amended). `storage_delete_file` writes no variable, so after it has succeeded on `id`
the engine is in the state it was in before: `storage_verify_integrity(id)` returns 1, and
`storage_retrieve_file(id)` returns 1 as soon as the id has at most 36 characters, the crypto
engine is initialised, its out-pointers are not `NULL` and its two allocations succeed. -/
theorem delete_then_retrieve_verify (g : Globals) (w : World) (file_id : List Char)
    (nm : Bool) (n : Nat) (hdel : storage_delete_file g (some file_id) = 1) :
    storage_verify_integrity g (some file_id) = 1 ∧
      (file_id.length ≤ 36 → g.INITIALIZED ≠ 0 → w.malloc_ok 0 = true →
        w.malloc_ok 1 = true →
        (storage_retrieve_file g w (some file_id) true true nm n).map RetrieveResult.ret
          = some 1) := by
  unfold storage_delete_file at hdel
  split at hdel
  · simp at hdel
  · rename_i hc
    push_neg at hc
    obtain ⟨hs, _⟩ := hc
    constructor
    · simp [storage_verify_integrity, hs]
    · intro hid hinit hm0 hm1
      rw [storage_retrieve_file_eq g w file_id nm n hs hinit hid hm0 hm1]
      rfl

/-- Witness for the amended C4 in the ready state. -/
theorem delete_then_retrieve_verify_witness :
    storage_delete_file Globals.ready (some ['x']) = 1 ∧
      storage_verify_integrity Globals.ready (some ['x']) = 1 ∧
      (storage_retrieve_file Globals.ready World.sample (some ['x']) true true true 256).map
          RetrieveResult.ret = some 1 :=
  ⟨by decide,
    (delete_then_retrieve_verify Globals.ready World.sample ['x'] true 256 (by decide)).1,
    (delete_then_retrieve_verify Globals.ready World.sample ['x'] true 256 (by decide)).2
      (by decide) (by decide) (by decide) (by decide)⟩

/-! ## C5: security-level rejection -/

/-- C5 fails. In the ready state `storage_store_file` returns an id, not `NULL`, for level 0
and for level 6. -/
theorem level_rejection_counterexample :
    storage_store_file Globals.ready World.sample (some [1]) (some ['a']) 0
        = some "2b435987-73ab-74de-bc44-e2ede4afa7c5".toList ∧
      storage_store_file Globals.ready World.sample (some [1]) (some ['a']) 6
        = some "2b435987-73ab-74de-bc44-e2ede4afa7c5".toList := by
  decide

/-- C5 (amended). `storage_store_file` does not look at the level: with storage and the crypto
engine initialised, the allocation succeeding and `file_size + 16` representable as `int`, it
returns an id (never `NULL`) for every `int` level, inside or outside 1..5, and that id is the
one it returns for level 1. -/
theorem store_accepts_every_level (g : Globals) (w : World) (P : List Nat) (name : List Char)
    (L : Int) (hs : g.STORAGE_INITIALIZED ≠ 0) (hinit : g.INITIALIZED ≠ 0)
    (hm : w.malloc_ok 0 = true) (hlen : P.length + 16 < 2 ^ 31) :
    storage_store_file g w (some P) (some name) L ≠ none ∧
      storage_store_file g w (some P) (some name) L
        = storage_store_file g w (some P) (some name) SECURITY_LEVEL_STANDARD := by
  rw [storage_store_file_eq g w P name L hs hinit hm hlen,
    storage_store_file_eq g w P name SECURITY_LEVEL_STANDARD hs hinit hm hlen]
  exact ⟨by simp, rfl⟩

/-- Witness for the amended C5: level 6 in the ready state. -/
theorem store_accepts_every_level_witness :
    storage_store_file Globals.ready World.sample (some [1]) (some ['a']) 6 ≠ none ∧
      storage_store_file Globals.ready World.sample (some [1]) (some ['a']) 6
        = storage_store_file Globals.ready World.sample (some [1]) (some ['a'])
            SECURITY_LEVEL_STANDARD :=
  store_accepts_every_level Globals.ready World.sample [1] ['a'] 6 (by decide) (by decide)
    (by decide) (by decide)

/-! ## C6: identifier uniqueness -/

/-- C6, the code at the failing input. Two consecutive successful `storage_store_file` calls
that read the same clock second, on different files, names, levels and `rand` draws, return
the same id. -/
theorem store_same_second_same_id :
    storage_store_file Globals.ready World.sample (some [1]) (some ['a']) 1
        = some "2b435987-73ab-74de-bc44-e2ede4afa7c5".toList ∧
      storage_store_file Globals.ready World.same_second (some [9, 9]) (some ['b']) 3
        = some "2b435987-73ab-74de-bc44-e2ede4afa7c5".toList := by
  decide

/-! ## C7: lifecycle gating -/

/-- C7. While the crypto engine is not initialised (at program start, after `crypto_cleanup`,
or in any state whose flag is 0), `crypto_encrypt_data` and `crypto_decrypt_data` return -1,
`crypto_verify_integrity` returns 0, and `crypto_compute_hash` and `crypto_generate_random`
write nothing, for all inputs; while storage is not initialised, `storage_store_file` returns
`NULL` and `storage_retrieve_file`, `storage_delete_file` and `storage_verify_integrity`
return 0. -/
theorem lifecycle_gating (g : Globals) :
    Globals.initial.INITIALIZED = 0 ∧ (crypto_cleanup g).INITIALIZED = 0 ∧
    (g.INITIALIZED = 0 →
      (∀ rand input output L, crypto_encrypt_data g rand input output L = (-1, none)) ∧
      (∀ input output L, crypto_decrypt_data g input output L = (-1, none)) ∧
      (∀ data stored_hash, crypto_verify_integrity g data stored_hash = 0) ∧
      (∀ data hash, crypto_compute_hash g data hash = none) ∧
      (∀ now buffer length, crypto_generate_random g now buffer length = none)) ∧
    (g.STORAGE_INITIALIZED = 0 →
      (∀ w file_data original_name L, storage_store_file g w file_data original_name L = none) ∧
      (∀ w file_id od os nm n,
        storage_retrieve_file g w file_id od os nm n
          = some { ret := 0, output_data := none, output_size := none,
                   original_name := none }) ∧
      (∀ file_id, storage_delete_file g file_id = 0) ∧
      (∀ file_id, storage_verify_integrity g file_id = 0)) := by
  refine ⟨rfl, ?_, ?_, ?_⟩
  · unfold crypto_cleanup
    split
    · assumption
    · rfl
  · intro h
    refine ⟨?_, ?_, ?_, ?_, ?_⟩
    · intro rand input output L
      cases input <;> simp [crypto_encrypt_data, h]
    · intro input output L
      cases input <;> simp [crypto_decrypt_data, h]
    · intro data stored_hash
      cases data <;> cases stored_hash <;> simp [crypto_verify_integrity, h]
    · intro data hash
      cases data <;> simp [crypto_compute_hash, h]
    · intro now buffer length
      simp [crypto_generate_random, h]
  · intro h
    refine ⟨?_, ?_, ?_, ?_⟩
    · intro w file_data original_name L
      cases file_data <;> cases original_name <;> simp [storage_store_file, h]
    · intro w file_id od os nm n
      cases file_id <;> simp [storage_retrieve_file, h]
    · intro file_id
      simp [storage_delete_file, h]
    · intro file_id
      simp [storage_verify_integrity, h]

/-- Witness for C7: both flags are 0 at program start, so every gate is closed there. -/
theorem lifecycle_gating_witness :
    (∀ rand input output L,
        crypto_encrypt_data Globals.initial rand input output L = (-1, none)) ∧
      (∀ w file_data original_name L,
        storage_store_file Globals.initial w file_data original_name L = none) :=
  ⟨((lifecycle_gating Globals.initial).2.2.1 rfl).1,
    ((lifecycle_gating Globals.initial).2.2.2 rfl).1⟩

/-! ## C8: decrypting with another level -/

/-- C8 fails. For the 64-byte plaintext and for the 63-byte plaintext below, encrypted at level
1 and decrypted at level 2, the integrity check against the digest of the plaintext returns
1. -/
theorem wrong_level_counterexample :
    crypto_verify_integrity Globals.ready
        (crypto_decrypt_data Globals.ready
          (crypto_encrypt_data Globals.ready World.sample.rand
            (some [90, 79, 128, 218, 111, 26, 253, 201, 178, 196, 84, 20, 46, 130, 51, 136,
              42, 71, 41, 227, 123, 195, 221, 203, 84, 166, 224, 64, 249, 108, 61, 220,
              179, 92, 135, 209, 0, 137, 30, 202, 161, 87, 171, 131, 93, 25, 140, 239,
              52, 219, 173, 119, 107, 111, 117, 247, 232, 210, 36, 60, 168, 193, 130, 119])
            true 1).2 true 2).2
        (crypto_compute_hash Globals.ready
          (some [90, 79, 128, 218, 111, 26, 253, 201, 178, 196, 84, 20, 46, 130, 51, 136,
            42, 71, 41, 227, 123, 195, 221, 203, 84, 166, 224, 64, 249, 108, 61, 220,
            179, 92, 135, 209, 0, 137, 30, 202, 161, 87, 171, 131, 93, 25, 140, 239,
            52, 219, 173, 119, 107, 111, 117, 247, 232, 210, 36, 60, 168, 193, 130, 119])
          true) = 1 ∧
      crypto_verify_integrity Globals.ready
        (crypto_decrypt_data Globals.ready
          (crypto_encrypt_data Globals.ready World.sample.rand
            (some [248, 47, 211, 114, 102, 246, 62, 183, 42, 16, 41, 165, 125, 226, 46, 98,
              16, 225, 67, 43, 241, 33, 25, 73, 253, 64, 253, 223, 245, 150, 1, 0,
              87, 16, 100, 57, 45, 73, 21, 248, 149, 119, 78, 130, 94, 161, 77, 129,
              255, 190, 104, 168, 130, 174, 26, 246, 146, 255, 178, 16, 222, 173, 177])
            true 1).2 true 2).2
        (crypto_compute_hash Globals.ready
          (some [248, 47, 211, 114, 102, 246, 62, 183, 42, 16, 41, 165, 125, 226, 46, 98,
            16, 225, 67, 43, 241, 33, 25, 73, 253, 64, 253, 223, 245, 150, 1, 0,
            87, 16, 100, 57, 45, 73, 21, 248, 149, 119, 78, 130, 94, 161, 77, 129,
            255, 190, 104, 168, 130, 174, 26, 246, 146, 255, 178, 16, 222, 173, 177])
          true) = 1 := by
  decide

/-- C8 (amended). On an initialised engine, for every master key, IV, distinct levels `L` and
`L1` in 1..5 and every non-empty plaintext `P` whose length is neither a multiple of 64 nor one
less than a multiple of 64 (as for every length from 1 to 62), decrypting the envelope
`crypto_encrypt_data(P, L)` with level `L1` gives data `D` for which
`crypto_verify_integrity(D, crypto_compute_hash(P))` returns 0. -/
theorem wrong_level_detected_short (g : Globals) (rand : Nat → Nat) (L L1 : Int)
    (P : List Nat) (hinit : g.INITIALIZED ≠ 0) (hbytes : ∀ b ∈ P, b < 256) (hne : P ≠ [])
    (hper : P.length % 64 ≠ 0 ∧ P.length % 64 ≠ 63) (hL : 1 ≤ L ∧ L ≤ 5)
    (hL1 : 1 ≤ L1 ∧ L1 ≤ 5) (hdiff : L ≠ L1) :
    crypto_verify_integrity g
        (crypto_decrypt_data g (crypto_encrypt_data g rand (some P) true L).2 true L1).2
        (crypto_compute_hash g (some P) true) = 0 := by
  rw [decrypt_encrypt_levels g rand L L1 P hinit hbytes hne, crypto_compute_hash_eq g P hinit,
    crypto_verify_integrity_eq g _ _ hinit (hash_finalize_length _ _)]
  have hm : level_byte L ≠ level_byte L1 := by
    unfold level_byte
    omega
  have hmask : level_byte L ^^^ level_byte L1 < 256 :=
    xor_lt_256 (level_byte_lt L) (level_byte_lt L1)
  have hpos : 0 < level_byte L ^^^ level_byte L1 := by
    rcases Nat.eq_zero_or_pos (level_byte L ^^^ level_byte L1) with h | h
    · have h2 : level_byte L ^^^ level_byte L1 = level_byte L1 ^^^ level_byte L1 := by
        rw [h, Nat.xor_self]
      exact absurd (Nat.xor_left_inj.mp h2) hm
    · exact h
  obtain ⟨m, hm0, hm1, hm2, hm3⟩ :
      ∃ m, (m = 0 ∨ m = 30) ∧ m < P.length ∧ (P.length - 1 - m) % 64 < 32 ∧ m % 2 = 0 := by
    by_cases h32 : P.length % 64 ≤ 32
    · exact ⟨0, by omega, by omega, by omega, by omega⟩
    · exact ⟨30, by omega, by omega, by omega, by omega⟩
  have hd := digest_differs_xor g.MASTER_KEY P
    (P.map (fun q => q ^^^ (level_byte L ^^^ level_byte L1)))
    (level_byte L ^^^ level_byte L1) m (fun _ => True) (fun i => i % 2 = 1) hpos hmask
    (List.length_map _ _)
    (by
      intro i hi
      constructor
      · intro _
        rw [List.getD_eq_getElem _ _ (by rw [List.length_map]; exact hi), List.getElem_map,
          List.getD_eq_getElem _ _ hi]
      · intro h
        exact absurd trivial h)
    (by beta_reduce; omega) (by intro i _; beta_reduce; simp only [iff_true]; omega)
    (by intro i _ _; beta_reduce; omega) hm1 hm2
  rw [if_neg (Ne.symm hd)]

/-- Witness for the amended C8: the 65-byte plaintext `0, 1, ..., 64` encrypted at level 1 and
decrypted at level 2. -/
theorem wrong_level_detected_short_witness :
    crypto_verify_integrity Globals.ready
        (crypto_decrypt_data Globals.ready
          (crypto_encrypt_data Globals.ready World.sample.rand (some (List.range 65)) true 1).2
          true 2).2
        (crypto_compute_hash Globals.ready (some (List.range 65)) true) = 0 :=
  wrong_level_detected_short Globals.ready World.sample.rand 1 2 (List.range 65) (by decide)
    (by decide) (by decide) (by decide) (by decide) (by decide) (by decide)

/-! ## C9: single-bit sensitivity of the hash -/

/-- C9 fails. Flipping bit 7 of byte 0 of the 64-byte input `0, 1, ..., 63` gives a different
input with the same digest, and so does flipping bit 7 of byte 0 of the 128-byte input
`0, 1, ..., 127`. -/
theorem single_bit_counterexample :
    ((List.range 64).set 0 ((List.range 64).getD 0 0 ^^^ 2 ^ 7) ≠ List.range 64 ∧
      crypto_compute_hash Globals.ready
          (some ((List.range 64).set 0 ((List.range 64).getD 0 0 ^^^ 2 ^ 7))) true
        = crypto_compute_hash Globals.ready (some (List.range 64)) true) ∧
    ((List.range 128).set 0 ((List.range 128).getD 0 0 ^^^ 2 ^ 7) ≠ List.range 128 ∧
      crypto_compute_hash Globals.ready
          (some ((List.range 128).set 0 ((List.range 128).getD 0 0 ^^^ 2 ^ 7))) true
        = crypto_compute_hash Globals.ready (some (List.range 128)) true) := by
  decide

/-- C9 (amended). On an initialised engine, for every byte string `D` and every `D1` obtained
from `D` by flipping one bit of byte `j`, when the number of bytes from byte `j` to the end of
`D` is not a multiple of 64 (as for each of the last 63 bytes of `D`), `crypto_compute_hash`
writes two different 32-byte digests. -/
theorem single_bit_last_block (g : Globals) (D : List Nat) (j k : Nat)
    (hinit : g.INITIALIZED ≠ 0) (hbytes : ∀ b ∈ D, b < 256) (hj : j < D.length)
    (hper : (D.length - j) % 64 ≠ 0) (hk : k < 8) :
    ∃ h h1, crypto_compute_hash g (some D) true = some h ∧
      crypto_compute_hash g (some (D.set j (D.getD j 0 ^^^ 2 ^ k))) true = some h1 ∧
      h.length = 32 ∧ h1.length = 32 ∧ h ≠ h1 := by
  have hb : D.getD j 0 < 256 := by
    apply hbytes
    rw [List.getD_eq_getElem _ _ hj]
    exact List.getElem_mem hj
  have hpow : 2 ^ k < 2 ^ 8 := Nat.pow_lt_pow_right (by norm_num) hk
  have hb1 : D.getD j 0 ^^^ 2 ^ k < 256 := by
    have := Nat.xor_lt_two_pow (n := 8) (by simpa using hb) hpow
    simpa using this
  have hne : D.getD j 0 ≠ D.getD j 0 ^^^ 2 ^ k := by
    intro h
    have h0 : D.getD j 0 ^^^ 0 = D.getD j 0 ^^^ 2 ^ k := by simpa using h
    have := Nat.xor_right_inj.mp h0
    have hpos : 0 < 2 ^ k := Nat.pow_pos (by norm_num)
    omega
  refine ⟨_, _, crypto_compute_hash_eq g D hinit, crypto_compute_hash_eq g _ hinit,
    hash_finalize_length _ _, hash_finalize_length _ _, ?_⟩
  exact digest_differs_set g.MASTER_KEY D j _ hj hper hb hb1 hne

/-- Witness for the amended C9: bit 7 of byte 0 of the 65-byte input `0, 1, ..., 64`. -/
theorem single_bit_last_block_witness :
    ∃ h h1, crypto_compute_hash Globals.ready (some (List.range 65)) true = some h ∧
      crypto_compute_hash Globals.ready
        (some ((List.range 65).set 0 ((List.range 65).getD 0 0 ^^^ 2 ^ 7))) true = some h1 ∧
      h.length = 32 ∧ h1.length = 32 ∧ h ≠ h1 :=
  single_bit_last_block Globals.ready (List.range 65) 0 7 (by decide) (by decide) (by decide)
    (by decide) (by decide)

/-! ## C10: what the digest depends on -/

/-- C10 fails. The digest of `[1, 2, 3]` computed in the ready state differs from the digest of
the same bytes computed after a shutdown and a second initialisation that drew another key. -/
theorem digest_key_counterexample :
    Globals.ready.INITIALIZED = 1 ∧ Globals.rekeyed.INITIALIZED = 1 ∧
      crypto_compute_hash Globals.ready (some [1, 2, 3]) true
        ≠ crypto_compute_hash Globals.rekeyed (some [1, 2, 3]) true := by
  decide

/-- C10 (amended). The digest is determined by the data and the master key: for every byte
string `D` and any two initialised engine states holding 32-byte keys, `crypto_compute_hash`
writes a 32-byte digest in both, and the two digests are equal exactly when the two master
keys are equal. -/
theorem digest_same_iff_key (g1 g2 : Globals) (D : List Nat)
    (h1 : g1.INITIALIZED ≠ 0) (h2 : g2.INITIALIZED ≠ 0)
    (hk1 : g1.MASTER_KEY.length = 32) (hk2 : g2.MASTER_KEY.length = 32)
    (hb1 : ∀ b ∈ g1.MASTER_KEY, b < 256) (hb2 : ∀ b ∈ g2.MASTER_KEY, b < 256) :
    (∃ d1 d2, crypto_compute_hash g1 (some D) true = some d1 ∧
        crypto_compute_hash g2 (some D) true = some d2 ∧ d1.length = 32 ∧ d2.length = 32) ∧
      (crypto_compute_hash g1 (some D) true = crypto_compute_hash g2 (some D) true
        ↔ g1.MASTER_KEY = g2.MASTER_KEY) := by
  refine ⟨⟨_, _, crypto_compute_hash_eq g1 D h1, crypto_compute_hash_eq g2 D h2,
    hash_finalize_length _ _, hash_finalize_length _ _⟩, ?_⟩
  rw [crypto_compute_hash_eq g1 D h1, crypto_compute_hash_eq g2 D h2]
  constructor
  · intro h
    have h := Option.some.inj h
    apply List.ext_getElem (by rw [hk1, hk2])
    intro i hi1 hi2
    have hi : i < 32 := by rw [hk1] at hi1; exact hi1
    have hg := congrArg (fun l => l.getD i 0) h
    simp only [hash_finalize_getD _ _ _ hi, to_uchar_xor] at hg
    have hx := Nat.xor_right_inj.mp hg
    rw [List.getD_eq_getElem _ _ hi1, List.getD_eq_getElem _ _ hi2,
      to_uchar_of_lt (hb1 _ (List.getElem_mem hi1)),
      to_uchar_of_lt (hb2 _ (List.getElem_mem hi2))] at hx
    exact hx
  · intro h
    rw [h]

/-- Witness for the amended C10: the ready state and the state after a second initialisation
hold different keys and give different digests. -/
theorem digest_same_iff_key_witness :
    (∃ d1 d2, crypto_compute_hash Globals.ready (some [1, 2, 3]) true = some d1 ∧
        crypto_compute_hash Globals.rekeyed (some [1, 2, 3]) true = some d2 ∧
        d1.length = 32 ∧ d2.length = 32) ∧
      (crypto_compute_hash Globals.ready (some [1, 2, 3]) true
          = crypto_compute_hash Globals.rekeyed (some [1, 2, 3]) true
        ↔ Globals.ready.MASTER_KEY = Globals.rekeyed.MASTER_KEY) :=
  digest_same_iff_key Globals.ready Globals.rekeyed [1, 2, 3] (by decide) (by decide)
    (by decide) (by decide) (by decide) (by decide)

/-! ## C11: the integrity comparison -/

/-- C11. On an initialised engine, for every byte string `D` and every 32-byte digest `H`,
`crypto_verify_integrity(D, H)` returns 1 if and only if `H` is the digest
`crypto_compute_hash` writes for `D`, byte for byte, and returns 0 otherwise; in particular
`crypto_verify_integrity(D, crypto_compute_hash(D))` is 1. -/
theorem verify_integrity_iff (g : Globals) (D H : List Nat) (hinit : g.INITIALIZED ≠ 0)
    (hlen : H.length = 32) :
    (crypto_verify_integrity g (some D) (some H) = 1
        ↔ crypto_compute_hash g (some D) true = some H) ∧
      (crypto_compute_hash g (some D) true ≠ some H →
        crypto_verify_integrity g (some D) (some H) = 0) ∧
      crypto_verify_integrity g (some D) (crypto_compute_hash g (some D) true) = 1 := by
  rw [crypto_compute_hash_eq g D hinit, crypto_verify_integrity_eq g D H hinit hlen,
    crypto_verify_integrity_eq g D _ hinit (hash_finalize_length _ _)]
  refine ⟨?_, ?_, ?_⟩
  · constructor
    · intro h
      by_cases hc : hash_finalize g.MASTER_KEY (hash_loop D).2.2 = H
      · rw [hc]
      · rw [if_neg hc] at h
        exact absurd h (by decide)
    · intro h
      rw [if_pos (Option.some.inj h)]
  · intro h
    rw [if_neg (fun hc => h (by rw [hc]))]
  · rw [if_pos rfl]

/-- Witness for C11: the digest of `[1, 2, 3]` in the ready state against 32 zero bytes. -/
theorem verify_integrity_iff_witness :
    (crypto_verify_integrity Globals.ready (some [1, 2, 3]) (some (List.replicate 32 0)) = 1
        ↔ crypto_compute_hash Globals.ready (some [1, 2, 3]) true
          = some (List.replicate 32 0)) ∧
      (crypto_compute_hash Globals.ready (some [1, 2, 3]) true ≠ some (List.replicate 32 0) →
        crypto_verify_integrity Globals.ready (some [1, 2, 3]) (some (List.replicate 32 0))
          = 0) ∧
      crypto_verify_integrity Globals.ready (some [1, 2, 3])
        (crypto_compute_hash Globals.ready (some [1, 2, 3]) true) = 1 :=
  verify_integrity_iff Globals.ready [1, 2, 3] (List.replicate 32 0) (by decide) (by decide)

/-! ## C12: the envelope of the empty plaintext -/

/-- C12, the code at the failing input. In the ready state `crypto_encrypt_data` accepts the
empty plaintext, returns 16 and writes a 16-byte envelope (the IV alone), and
`crypto_decrypt_data` on that envelope returns -1 and writes nothing, because its guard is
`input_len <= 16`. -/
theorem decrypt_rejects_empty_envelope :
    crypto_encrypt_data Globals.ready World.sample.rand (some []) true 1
        = (16, some [3, 10, 17, 24, 31, 38, 45, 52, 59, 66, 73, 80, 87, 94, 101, 108]) ∧
      crypto_decrypt_data Globals.ready
        (some [3, 10, 17, 24, 31, 38, 45, 52, 59, 66, 73, 80, 87, 94, 101, 108]) true 1
        = (-1, none) := by
  decide

/-! ## C13: envelope shape -/

/-- C13. On an initialised engine holding key bytes, for every plaintext `P` of bytes with
`P.length + 16` representable as `int` and every level `L`, `crypto_encrypt_data` returns
`P.length + 16` and writes an envelope of that length whose first 16 bytes are the IV drawn by
the call (`rand() % 256` for each of the 16 draws) and whose remaining `P.length` bytes are
`P[i] xor key[i mod 32] xor IV[i mod 16] xor (L and 0xFF)`. -/
theorem envelope_shape (g : Globals) (rand : Nat → Nat) (P : List Nat) (L : Int)
    (hinit : g.INITIALIZED ≠ 0) (hbytes : ∀ b ∈ P, b < 256)
    (hkey : ∀ b ∈ g.MASTER_KEY, b < 256) (hlen : P.length + 16 < 2 ^ 31) :
    ∃ E, crypto_encrypt_data g rand (some P) true L = (((P.length + 16 : Nat) : Int), some E) ∧
      E.length = P.length + 16 ∧ E.take 16 = draw_iv rand ∧
      (∀ i, i < 16 → E.getD i 0 = rand i % 256) ∧
      (E.drop 16).length = P.length ∧
      ∀ i, i < P.length →
        (E.drop 16).getD i 0
          = P.getD i 0 ^^^ g.MASTER_KEY.getD (i % 32) 0 ^^^ (E.take 16).getD (i % 16) 0
            ^^^ level_byte L := by
  refine ⟨draw_iv rand ++ (List.range P.length).map (fun i =>
      to_uchar (P.getD i 0 ^^^ g.MASTER_KEY.getD (i % 32) 0
        ^^^ (draw_iv rand).getD (i % 16) 0 ^^^ level_byte L)), ?_, ?_, ?_, ?_, ?_, ?_⟩
  · rw [crypto_encrypt_data_eq g rand P L hinit, to_int_of_lt hlen]
  · rw [List.length_append, draw_iv_length, List.length_map, List.length_range]
    omega
  · rw [← draw_iv_length rand, List.take_left]
  · intro i hi
    rw [List.getD_append _ _ _ _ (by rw [draw_iv_length]; exact hi), draw_iv_getD rand i hi]
  · rw [← draw_iv_length rand, List.drop_left, List.length_map, List.length_range]
  · intro i hi
    have e1 : (draw_iv rand ++ (List.range P.length).map (fun i =>
        to_uchar (P.getD i 0 ^^^ g.MASTER_KEY.getD (i % 32) 0
          ^^^ (draw_iv rand).getD (i % 16) 0 ^^^ level_byte L))).take 16 = draw_iv rand := by
      rw [← draw_iv_length rand, List.take_left]
    have e2 : (draw_iv rand ++ (List.range P.length).map (fun i =>
        to_uchar (P.getD i 0 ^^^ g.MASTER_KEY.getD (i % 32) 0
          ^^^ (draw_iv rand).getD (i % 16) 0 ^^^ level_byte L))).drop 16
        = (List.range P.length).map (fun i =>
          to_uchar (P.getD i 0 ^^^ g.MASTER_KEY.getD (i % 32) 0
            ^^^ (draw_iv rand).getD (i % 16) 0 ^^^ level_byte L)) := by
      rw [← draw_iv_length rand, List.drop_left]
    rw [e1, e2, encrypt_body_getD g _ P L i hi]
    apply to_uchar_of_lt
    exact xor_lt_256 (xor_lt_256 (xor_lt_256 (getD_lt_of_forall P hbytes i)
      (getD_lt_of_forall _ hkey _)) (draw_iv_getD_lt rand _)) (level_byte_lt L)

/-- Witness for C13: `[1, 2, 3]` at level 1 in the ready state. -/
theorem envelope_shape_witness :
    ∃ E, crypto_encrypt_data Globals.ready World.sample.rand (some [1, 2, 3]) true 1
        = ((([1, 2, 3].length + 16 : Nat) : Int), some E) ∧
      E.length = [1, 2, 3].length + 16 ∧ E.take 16 = draw_iv World.sample.rand ∧
      (∀ i, i < 16 → E.getD i 0 = World.sample.rand i % 256) ∧
      (E.drop 16).length = [1, 2, 3].length ∧
      ∀ i, i < [1, 2, 3].length →
        (E.drop 16).getD i 0
          = [1, 2, 3].getD i 0 ^^^ Globals.ready.MASTER_KEY.getD (i % 32) 0
            ^^^ (E.take 16).getD (i % 16) 0 ^^^ level_byte 1 :=
  envelope_shape Globals.ready World.sample.rand [1, 2, 3] 1 (by decide) (by decide)
    (by decide) (by decide)

/-! ## C14: initialisation is idempotent -/

/-- C14. `crypto_init` on an initialised engine returns 1 and leaves every variable, the 32
key bytes among them, as it was; `storage_init(path)` on initialised storage returns 1 and
leaves the storage path, the master key and both flags as they were, for every `path`, `NULL`
included. -/
theorem init_idempotent (g : Globals) :
    (g.INITIALIZED ≠ 0 → ∀ rand, crypto_init g rand = (1, g)) ∧
      (g.STORAGE_INITIALIZED ≠ 0 → ∀ w storage_path, storage_init g w storage_path = (1, g)) := by
  constructor
  · intro h rand
    simp [crypto_init, h]
  · intro h w storage_path
    simp [storage_init, h]

/-- Witness for C14 in the ready state, where both flags are 1. -/
theorem init_idempotent_witness :
    (∀ rand, crypto_init Globals.ready rand = (1, Globals.ready)) ∧
      (∀ w storage_path, storage_init Globals.ready w storage_path = (1, Globals.ready)) :=
  ⟨(init_idempotent Globals.ready).1 (by decide), (init_idempotent Globals.ready).2 (by decide)⟩

/-! ## C15: shutdown wipes the key -/

/-- C15. After `crypto_cleanup` on an initialised engine, and after `storage_cleanup` on
initialised storage with an initialised engine, each of the 32 master-key bytes is 0 and the
engine is not initialised, so `crypto_encrypt_data` and `crypto_decrypt_data` return -1 for
all inputs; a following `crypto_init` sets the flag again and `crypto_encrypt_data` writes an
envelope again. `crypto_cleanup` on an engine that is not initialised changes nothing. -/
theorem cleanup_wipes_key (g : Globals) :
    (g.INITIALIZED ≠ 0 →
      (crypto_cleanup g).MASTER_KEY = List.replicate 32 0 ∧
      (crypto_cleanup g).INITIALIZED = 0 ∧
      (∀ rand input output L,
        crypto_encrypt_data (crypto_cleanup g) rand input output L = (-1, none)) ∧
      (∀ input output L, crypto_decrypt_data (crypto_cleanup g) input output L = (-1, none)) ∧
      (∀ rand, (crypto_init (crypto_cleanup g) rand).2.INITIALIZED = 1) ∧
      (∀ rand rand1 P L,
        (crypto_encrypt_data (crypto_init (crypto_cleanup g) rand).2 rand1 (some P) true L).2
          ≠ none)) ∧
    (g.INITIALIZED ≠ 0 → g.STORAGE_INITIALIZED ≠ 0 →
      (storage_cleanup g).MASTER_KEY = List.replicate 32 0 ∧
      (storage_cleanup g).INITIALIZED = 0 ∧
      (∀ rand input output L,
        crypto_encrypt_data (storage_cleanup g) rand input output L = (-1, none)) ∧
      (∀ input output L, crypto_decrypt_data (storage_cleanup g) input output L = (-1, none))) ∧
    (g.INITIALIZED = 0 → crypto_cleanup g = g) := by
  have hc : g.INITIALIZED ≠ 0 →
      crypto_cleanup g = { g with MASTER_KEY := List.replicate 32 0, INITIALIZED := 0 } := by
    intro h
    simp [crypto_cleanup, h]
  refine ⟨?_, ?_, ?_⟩
  · intro h
    rw [hc h]
    refine ⟨rfl, rfl, ?_, ?_, ?_, ?_⟩
    · intro rand input output L
      cases input <;> simp [crypto_encrypt_data]
    · intro input output L
      cases input <;> simp [crypto_decrypt_data]
    · intro rand
      simp [crypto_init]
    · intro rand rand1 P L
      simp [crypto_init, crypto_encrypt_data]
  · intro h hs
    have hsc : storage_cleanup g
        = { g with MASTER_KEY := List.replicate 32 0, INITIALIZED := 0,
                   STORAGE_INITIALIZED := 0 } := by
      simp [storage_cleanup, hs, hc h]
    rw [hsc]
    refine ⟨rfl, rfl, ?_, ?_⟩
    · intro rand input output L
      cases input <;> simp [crypto_encrypt_data]
    · intro input output L
      cases input <;> simp [crypto_decrypt_data]
  · intro h
    simp [crypto_cleanup, h]

/-- Witness for C15: cleanup of the ready state, and of the state at program start. -/
theorem cleanup_wipes_key_witness :
    ((crypto_cleanup Globals.ready).MASTER_KEY = List.replicate 32 0 ∧
      (crypto_cleanup Globals.ready).INITIALIZED = 0) ∧
    ((storage_cleanup Globals.ready).MASTER_KEY = List.replicate 32 0 ∧
      (storage_cleanup Globals.ready).INITIALIZED = 0) ∧
    crypto_cleanup Globals.initial = Globals.initial :=
  ⟨⟨((cleanup_wipes_key Globals.ready).1 (by decide)).1,
      ((cleanup_wipes_key Globals.ready).1 (by decide)).2.1⟩,
    ⟨((cleanup_wipes_key Globals.ready).2.1 (by decide) (by decide)).1,
      ((cleanup_wipes_key Globals.ready).2.1 (by decide) (by decide)).2.1⟩,
    (cleanup_wipes_key Globals.initial).2.2 (by decide)⟩

/-! ## C16: identifier format -/

/-- C16. On an initialised engine, for every clock value, `crypto_generate_random` produces 16
bytes and `generate_file_id` writes a string of exactly 36 characters with `-` at positions 8,
13, 18 and 23 and a lowercase hexadecimal digit everywhere else (groups of 8-4-4-4-12), whose
32 hex digits are, in order, the two-digit encodings (high nibble, low nibble) of those 16
bytes. -/
theorem file_id_format (g : Globals) (now : Int) (stack : Nat → Nat)
    (hinit : g.INITIALIZED ≠ 0) :
    ∃ bytes id, crypto_generate_random g now true 16 = some bytes ∧ bytes.length = 16 ∧
      (∀ b ∈ bytes, b < 256) ∧
      generate_file_id g now stack true = some id ∧ id.length = 36 ∧
      (∀ i, i < 36 →
        if i = 8 ∨ i = 13 ∨ i = 18 ∨ i = 23 then id.getD i ' ' = '-'
        else id.getD i ' ' ∈ "0123456789abcdef".toList) ∧
      id.filter (fun c => c != '-')
        = ((List.range 16).map (fun j =>
            [hex_digit (bytes.getD j 0 / 16), hex_digit (bytes.getD j 0 % 16)])).flatten := by
  refine ⟨random_loop 16 (int_to_uint now), format_uuid (random_loop 16 (int_to_uint now)),
    ?_, random_loop_length _ _, random_loop_lt _ _, ?_,
    (format_uuid_shape _).1, (format_uuid_shape _).2.1, (format_uuid_shape _).2.2⟩
  · simp [crypto_generate_random, hinit]
  · simp [generate_file_id, crypto_generate_random, hinit]

/-- Witness for C16: the ready state at the sample clock value. -/
theorem file_id_format_witness :
    ∃ bytes id, crypto_generate_random Globals.ready 1700000000 true 16 = some bytes ∧
      bytes.length = 16 ∧ (∀ b ∈ bytes, b < 256) ∧
      generate_file_id Globals.ready 1700000000 World.sample.stack true = some id ∧
      id.length = 36 ∧
      (∀ i, i < 36 →
        if i = 8 ∨ i = 13 ∨ i = 18 ∨ i = 23 then id.getD i ' ' = '-'
        else id.getD i ' ' ∈ "0123456789abcdef".toList) ∧
      id.filter (fun c => c != '-')
        = ((List.range 16).map (fun j =>
            [hex_digit (bytes.getD j 0 / 16), hex_digit (bytes.getD j 0 % 16)])).flatten :=
  file_id_format Globals.ready 1700000000 World.sample.stack (by decide)

/-! ## C17: what the identifier depends on -/

/-- C17. The id returned by a successful `storage_store_file` is a function of the clock value
read by `crypto_generate_random` alone: two successful calls that read the same clock value
return the same id, whatever the file contents, names, levels, master keys and other state of
the two calls. -/
theorem file_id_depends_on_clock_only (g1 g2 : Globals) (w1 w2 : World)
    (file_data1 file_data2 : Option (List Nat)) (name1 name2 : Option (List Char))
    (L1 L2 : Int) (id1 id2 : List Char) (hclock : w1.time 0 = w2.time 0)
    (h1 : storage_store_file g1 w1 file_data1 name1 L1 = some id1)
    (h2 : storage_store_file g2 w2 file_data2 name2 L2 = some id2) :
    id1 = format_uuid (random_loop 16 (int_to_uint (w1.time 0))) ∧ id1 = id2 := by
  have e1 := store_some_id g1 w1 file_data1 name1 L1 id1 h1
  have e2 := store_some_id g2 w2 file_data2 name2 L2 id2 h2
  refine ⟨e1, ?_⟩
  rw [e1, e2, hclock]

/-- Witness for C17: two stores of different files under different keys at the same clock
value. -/
theorem file_id_depends_on_clock_only_witness :
    (storage_store_file Globals.ready World.sample (some [1]) (some ['a']) 1
        = some "2b435987-73ab-74de-bc44-e2ede4afa7c5".toList ∧
      storage_store_file Globals.rekeyed World.same_second (some [9, 9]) (some ['b']) 3
        = some "2b435987-73ab-74de-bc44-e2ede4afa7c5".toList) ∧
    ("2b435987-73ab-74de-bc44-e2ede4afa7c5".toList
        = format_uuid (random_loop 16 (int_to_uint (World.sample.time 0))) ∧
      "2b435987-73ab-74de-bc44-e2ede4afa7c5".toList
        = "2b435987-73ab-74de-bc44-e2ede4afa7c5".toList) :=
  ⟨⟨by decide, by decide⟩,
    file_id_depends_on_clock_only Globals.ready Globals.rekeyed World.sample World.same_second
      (some [1]) (some [9, 9]) (some ['a']) (some ['b']) 1 3
      "2b435987-73ab-74de-bc44-e2ede4afa7c5".toList
      "2b435987-73ab-74de-bc44-e2ede4afa7c5".toList (by decide) (by decide) (by decide)⟩

/-! ## C18: hex rendering -/

/-- C18. For every 32-byte digest, `crypto_hash_to_string` writes exactly 64 characters before
the terminator, each a lowercase hexadecimal digit, characters `2 * i` and `2 * i + 1` being
the digits of the high and the low nibble of byte `i`; two different 32-byte digests give two
different strings. -/
theorem hash_to_string_hex (h : List Nat) (hlen : h.length = 32) (hb : ∀ b ∈ h, b < 256) :
    ∃ s, crypto_hash_to_string (some h) true = some s ∧ s.length = 64 ∧
      (∀ c ∈ s, c ∈ "0123456789abcdef".toList) ∧
      (∀ i, i < 32 → s.getD (2 * i) ' ' = hex_digit (h.getD i 0 / 16) ∧
        s.getD (2 * i + 1) ' ' = hex_digit (h.getD i 0 % 16)) ∧
      ∀ h2 : List Nat, h2.length = 32 → (∀ b ∈ h2, b < 256) →
        crypto_hash_to_string (some h2) true = some s → h2 = h := by
  obtain ⟨hl, hg⟩ := flatten_pairs_getD (fun i => hex_digit (h.getD i 0 / 16))
    (fun i => hex_digit (h.getD i 0 % 16)) ' ' 32
  refine ⟨_, crypto_hash_to_string_eq h, hl, ?_, hg, ?_⟩
  · intro c hc
    simp only [List.mem_flatten, List.mem_map] at hc
    obtain ⟨l, ⟨i, _, rfl⟩, hcl⟩ := hc
    simp only [List.mem_cons, List.mem_singleton, List.not_mem_nil, or_false] at hcl
    rcases hcl with rfl | rfl
    · exact hex_digit_mem _
    · exact hex_digit_mem _
  · intro h2 hlen2 hb2 hs
    rw [crypto_hash_to_string_eq h2] at hs
    have hs := Option.some.inj hs
    obtain ⟨_, hg2⟩ := flatten_pairs_getD (fun i => hex_digit (h2.getD i 0 / 16))
      (fun i => hex_digit (h2.getD i 0 % 16)) ' ' 32
    apply List.ext_getElem (by rw [hlen, hlen2])
    intro i hi2 hi
    have hi32 : i < 32 := by rw [hlen] at hi; exact hi
    have a1 := (hg i hi32).1
    have a2 := (hg i hi32).2
    have b1 := (hg2 i hi32).1
    have b2 := (hg2 i hi32).2
    rw [hs] at b1 b2
    have c1 : h.getD i 0 < 256 := getD_lt_of_forall h hb i
    have c2 : h2.getD i 0 < 256 := getD_lt_of_forall h2 hb2 i
    have d1 := hex_digit_inj _ (by omega) _ (by omega) (b1.symm.trans a1)
    have d2 := hex_digit_inj _ (Nat.mod_lt _ (by norm_num)) _ (Nat.mod_lt _ (by norm_num))
      (b2.symm.trans a2)
    rw [← List.getD_eq_getElem h2 0 hi2, ← List.getD_eq_getElem h 0 hi]
    omega

/-- Witness for C18: the 32-byte digest `0, 1, ..., 31`. -/
theorem hash_to_string_hex_witness :
    ∃ s, crypto_hash_to_string (some (List.range 32)) true = some s ∧ s.length = 64 ∧
      (∀ c ∈ s, c ∈ "0123456789abcdef".toList) ∧
      (∀ i, i < 32 → s.getD (2 * i) ' ' = hex_digit ((List.range 32).getD i 0 / 16) ∧
        s.getD (2 * i + 1) ' ' = hex_digit ((List.range 32).getD i 0 % 16)) ∧
      ∀ h2 : List Nat, h2.length = 32 → (∀ b ∈ h2, b < 256) →
        crypto_hash_to_string (some h2) true = some s → h2 = List.range 32 :=
  hash_to_string_hex (List.range 32) (by decide) (by decide)

/-! ## C19: the digest and the master key -/

/-- C19. On an initialised engine holding a 32-byte key, `crypto_compute_hash` of the empty
input writes exactly the 32 master-key bytes, and for every input of length `n < 32` the
digest bytes at positions `n..31` are the master-key bytes at those positions; the bridge's
hash-only operation on the empty input returns the key in hex. -/
theorem digest_exposes_key (g : Globals) (D : List Nat) (stack : Nat → Nat)
    (hinit : g.INITIALIZED ≠ 0) (hklen : g.MASTER_KEY.length = 32)
    (hkey : ∀ b ∈ g.MASTER_KEY, b < 256) :
    crypto_compute_hash g (some []) true = some g.MASTER_KEY ∧
      (D.length < 32 → ∃ d, crypto_compute_hash g (some D) true = some d ∧
        ∀ p, D.length ≤ p → p < 32 → d.getD p 0 = g.MASTER_KEY.getD p 0) ∧
      Java_com_safalifter_filestorage_service_SecureStorageService_computeFileHash g stack []
        = ((List.range 32).map (fun i =>
            [hex_digit (g.MASTER_KEY.getD i 0 / 16),
              hex_digit (g.MASTER_KEY.getD i 0 % 16)])).flatten := by
  have hempty : hash_finalize g.MASTER_KEY (hash_loop []).2.2 = g.MASTER_KEY := by
    apply List.ext_getElem (by rw [hash_finalize_length, hklen])
    intro i h1 h2
    have hi : i < 32 := by rw [hklen] at h2; exact h2
    rw [← List.getD_eq_getElem _ 0 h1, hash_finalize_getD _ _ _ hi,
      ← List.getD_eq_getElem _ 0 h2]
    have hz : (hash_loop []).2.2.getD i 0 = 0 := replicate_getD_zero 32 i
    rw [hz, Nat.zero_xor]
    exact to_uchar_of_lt (getD_lt_of_forall _ hkey i)
  refine ⟨?_, ?_, ?_⟩
  · rw [crypto_compute_hash_eq g [] hinit, hempty]
  · intro hD
    refine ⟨_, crypto_compute_hash_eq g D hinit, ?_⟩
    intro p hp hp32
    rw [hash_finalize_getD _ _ _ hp32]
    have hframe : (hash_loop D).2.2.getD p 0 = (List.replicate 32 0).getD p 0 := by
      unfold hash_loop
      apply foldl_hash_step_frame
      intro t ht
      have : (0 + t) % 32 = t := by
        rw [Nat.zero_add]; exact Nat.mod_eq_of_lt (by omega)
      simp only [this]
      omega
    have hz : (List.replicate 32 0).getD p 0 = 0 := replicate_getD_zero 32 p
    rw [hframe, hz, Nat.zero_xor]
    exact to_uchar_of_lt (getD_lt_of_forall _ hkey p)
  · unfold Java_com_safalifter_filestorage_service_SecureStorageService_computeFileHash
    rw [crypto_compute_hash_eq g [] hinit, hempty]
    simp only []
    rw [crypto_hash_to_string_eq]

/-- Witness for C19: the ready state and the two-byte input `[7, 9]`. -/
theorem digest_exposes_key_witness :
    crypto_compute_hash Globals.ready (some []) true = some Globals.ready.MASTER_KEY ∧
      (∃ d, crypto_compute_hash Globals.ready (some [7, 9]) true = some d ∧
        ∀ p, [7, 9].length ≤ p → p < 32 → d.getD p 0 = Globals.ready.MASTER_KEY.getD p 0) ∧
      Java_com_safalifter_filestorage_service_SecureStorageService_computeFileHash
          Globals.ready World.sample.stack []
        = ((List.range 32).map (fun i =>
            [hex_digit (Globals.ready.MASTER_KEY.getD i 0 / 16),
              hex_digit (Globals.ready.MASTER_KEY.getD i 0 % 16)])).flatten :=
  ⟨(digest_exposes_key Globals.ready [7, 9] World.sample.stack (by decide) (by decide)
      (by decide)).1,
    (digest_exposes_key Globals.ready [7, 9] World.sample.stack (by decide) (by decide)
      (by decide)).2.1 (by decide),
    (digest_exposes_key Globals.ready [7, 9] World.sample.stack (by decide) (by decide)
      (by decide)).2.2⟩

/-! ## C20: what a retrieve returns -/

/-- C20 fails. In the ready state, with a non-`NULL` file id, `storage_retrieve_file` returns 0
when `output_data` is `NULL` and when its allocations fail, and for an id of 37 characters its
`strcpy` writes past the 37-byte metadata field instead of returning 1. -/
theorem retrieve_ignores_store_counterexample :
    storage_retrieve_file Globals.ready World.sample (some ['x']) false true true 256
        = some { ret := 0, output_data := none, output_size := none, original_name := none } ∧
      storage_retrieve_file Globals.ready World.no_memory (some ['x']) true true true 256
        = some { ret := 0, output_data := none, output_size := none, original_name := none } ∧
      storage_retrieve_file Globals.ready World.sample (some (List.replicate 37 'a'))
        true true true 256 = none := by
  decide

/-- C20 (amended). With storage and the crypto engine initialised (the key holding bytes),
non-`NULL` out-pointers and both allocations succeeding, `storage_retrieve_file` returns 1 for
every non-`NULL` file id of at most 36 characters, with `output_size = 1024`, the name
`example.pdf` cut to `name_buffer_size - 1` characters, and output byte `i` equal to
`((i + 16) mod 256) xor key[i mod 32] xor (i mod 16) xor 2` for every `i < 1024`; the result is
the same for any two such file ids and after any history of store and delete calls. -/
theorem retrieve_ignores_store (g : Globals) (w : World) (file_id : List Char) (nm : Bool)
    (n : Nat) (hs : g.STORAGE_INITIALIZED ≠ 0) (hinit : g.INITIALIZED ≠ 0)
    (hkey : ∀ b ∈ g.MASTER_KEY, b < 256) (hid : file_id.length ≤ 36)
    (hm0 : w.malloc_ok 0 = true) (hm1 : w.malloc_ok 1 = true) :
    storage_retrieve_file g w (some file_id) true true nm n =
        some { ret := 1,
               output_data := some (some ((List.range 1024).map (fun i =>
                 (i + 16) % 256 ^^^ g.MASTER_KEY.getD (i % 32) 0 ^^^ i % 16 ^^^ 2))),
               output_size := some 1024,
               original_name :=
                 if nm = true ∧ n > 0 then some ("example.pdf".toList.take (n - 1))
                 else none } ∧
      ∀ (file_id2 : List Char) (calls : List Call), file_id2.length ≤ 36 →
        (∀ c ∈ calls, c.is_store_or_delete = true) →
        storage_retrieve_file (run g calls) w (some file_id2) true true nm n
          = storage_retrieve_file g w (some file_id) true true nm n := by
  have hmap : (List.range 1024).map (fun i =>
        to_uchar ((i + 16) % 256 ^^^ g.MASTER_KEY.getD (i % 32) 0 ^^^ i % 16 ^^^ 2))
      = (List.range 1024).map (fun i =>
        (i + 16) % 256 ^^^ g.MASTER_KEY.getD (i % 32) 0 ^^^ i % 16 ^^^ 2) :=
    List.map_congr_left (fun i _ => retrieved_byte_eq g.MASTER_KEY hkey i)
  constructor
  · rw [storage_retrieve_file_eq g w file_id nm n hs hinit hid hm0 hm1, hmap]
  · intro file_id2 calls hid2 hcalls
    rw [run_store_delete calls g hcalls,
      storage_retrieve_file_eq g w file_id nm n hs hinit hid hm0 hm1,
      storage_retrieve_file_eq g w file_id2 nm n hs hinit hid2 hm0 hm1]

/-- Witness for the amended C20: the ready state, a 256-byte name buffer, and a retrieve of
another id after a store and a delete. -/
theorem retrieve_ignores_store_witness :
    storage_retrieve_file Globals.ready World.sample (some ['x']) true true true 256 =
        some { ret := 1,
               output_data := some (some ((List.range 1024).map (fun i =>
                 (i + 16) % 256 ^^^ Globals.ready.MASTER_KEY.getD (i % 32) 0 ^^^ i % 16
                   ^^^ 2))),
               output_size := some 1024,
               original_name :=
                 if true = true ∧ 256 > 0 then some ("example.pdf".toList.take (256 - 1))
                 else none } ∧
      storage_retrieve_file
          (run Globals.ready
            [Call.store World.sample (some [1]) (some ['a']) 1, Call.delete (some ['y'])])
          World.sample (some ['y']) true true true 256
        = storage_retrieve_file Globals.ready World.sample (some ['x']) true true true 256 :=
  ⟨(retrieve_ignores_store Globals.ready World.sample ['x'] true 256 (by decide) (by decide)
      (by decide) (by decide) (by decide) (by decide)).1,
    (retrieve_ignores_store Globals.ready World.sample ['x'] true 256 (by decide) (by decide)
      (by decide) (by decide) (by decide) (by decide)).2 ['y']
      [Call.store World.sample (some [1]) (some ['a']) 1, Call.delete (some ['y'])]
      (by decide) (by decide)⟩

/-! ## C21: verify and delete once storage is initialised -/

/-- C21. After every history of calls that leaves storage initialised, for every non-`NULL`
file id, `storage_verify_integrity` returns 1 and `storage_delete_file` returns 1, and neither
call changes a file-scope variable. -/
theorem verify_delete_constant (g0 : Globals) (calls : List Call) (file_id : List Char)
    (hs : (run g0 calls).STORAGE_INITIALIZED ≠ 0) :
    storage_verify_integrity (run g0 calls) (some file_id) = 1 ∧
      storage_delete_file (run g0 calls) (some file_id) = 1 ∧
      run g0 (calls ++ [Call.verify (some file_id)]) = run g0 calls ∧
      run g0 (calls ++ [Call.delete (some file_id)]) = run g0 calls := by
  refine ⟨?_, ?_, ?_, ?_⟩
  · simp [storage_verify_integrity, hs]
  · simp [storage_delete_file, hs]
  · simp [run, Call.apply]
  · simp [run, Call.apply]

/-- Witness for C21: after an init, a store and a delete from program start. -/
theorem verify_delete_constant_witness :
    storage_verify_integrity
        (run Globals.initial
          [Call.init World.sample none, Call.store World.sample (some [1]) (some ['a']) 1,
            Call.delete (some ['x'])]) (some ['x']) = 1 ∧
      storage_delete_file
        (run Globals.initial
          [Call.init World.sample none, Call.store World.sample (some [1]) (some ['a']) 1,
            Call.delete (some ['x'])]) (some ['x']) = 1 ∧
      run Globals.initial
          ([Call.init World.sample none, Call.store World.sample (some [1]) (some ['a']) 1,
            Call.delete (some ['x'])] ++ [Call.verify (some ['x'])])
        = run Globals.initial
          [Call.init World.sample none, Call.store World.sample (some [1]) (some ['a']) 1,
            Call.delete (some ['x'])] ∧
      run Globals.initial
          ([Call.init World.sample none, Call.store World.sample (some [1]) (some ['a']) 1,
            Call.delete (some ['x'])] ++ [Call.delete (some ['x'])])
        = run Globals.initial
          [Call.init World.sample none, Call.store World.sample (some [1]) (some ['a']) 1,
            Call.delete (some ['x'])] :=
  verify_delete_constant Globals.initial
    [Call.init World.sample none, Call.store World.sample (some [1]) (some ['a']) 1,
      Call.delete (some ['x'])] ['x'] (by decide)

/-! ## C22: decrypting with another level, byte by byte -/

/-- C22 fails. For the empty plaintext, encrypted at level 1 in the ready state, decrypting
the 16-byte envelope at level 2 returns -1 and writes nothing, not a byte string of length
0. -/
theorem wrong_level_mask_counterexample :
    crypto_decrypt_data Globals.ready
        (crypto_encrypt_data Globals.ready World.sample.rand (some []) true 1).2 true 2
      = (-1, none) := by
  decide

/-- C22 (amended). On an initialised engine, for every master key, IV, levels `L` and `L1` and
every non-empty plaintext `P` of bytes, decrypting `crypto_encrypt_data(P, L)` with level `L1`
writes a byte string of the same length as `P` (the return value, when `P.length` fits an
`int`) whose byte `i` is `P[i] xor ((L xor L1) and 0xFF)`; it differs from `P` in every byte
when `L` and `L1` are distinct levels in 1..5, and is `P` when `L` and `L1` agree modulo 256. -/
theorem wrong_level_mask (g : Globals) (rand : Nat → Nat) (L L1 : Int) (P : List Nat)
    (hinit : g.INITIALIZED ≠ 0) (hbytes : ∀ b ∈ P, b < 256) (hne : P ≠ []) :
    ∃ D, (crypto_decrypt_data g (crypto_encrypt_data g rand (some P) true L).2 true L1).2
        = some D ∧
      D.length = P.length ∧
      (P.length < 2 ^ 31 →
        (crypto_decrypt_data g (crypto_encrypt_data g rand (some P) true L).2 true L1).1
          = (P.length : Int)) ∧
      (∀ i, i < P.length → D.getD i 0 = P.getD i 0 ^^^ level_byte (Int.xor L L1)) ∧
      ((1 ≤ L ∧ L ≤ 5) → (1 ≤ L1 ∧ L1 ≤ 5) → L ≠ L1 →
        ∀ i, i < P.length → D.getD i 0 ≠ P.getD i 0) ∧
      (L % 256 = L1 % 256 → D = P) := by
  have hget : ∀ i, i < P.length →
      (P.map (fun p => p ^^^ (level_byte L ^^^ level_byte L1))).getD i 0
        = P.getD i 0 ^^^ (level_byte L ^^^ level_byte L1) := by
    intro i hi
    rw [List.getD_eq_getElem _ _ (by rw [List.length_map]; exact hi), List.getElem_map,
      List.getD_eq_getElem _ _ hi]
  refine ⟨P.map (fun p => p ^^^ (level_byte L ^^^ level_byte L1)),
    decrypt_encrypt_levels g rand L L1 P hinit hbytes hne, List.length_map _ _, ?_, ?_, ?_, ?_⟩
  · intro hlen
    rw [decrypt_encrypt_ret g rand L L1 P hinit hne, to_int_of_lt hlen]
  · intro i hi
    rw [hget i hi, level_byte_xor]
  · intro hL hL1 hdiff i hi
    rw [hget i hi]
    have hm : level_byte L ≠ level_byte L1 := by
      unfold level_byte
      omega
    intro h
    have h0 : P.getD i 0 ^^^ (level_byte L ^^^ level_byte L1) = P.getD i 0 ^^^ 0 := by
      simpa using h
    have h1 := Nat.xor_right_inj.mp h0
    have h2 : level_byte L ^^^ level_byte L1 = level_byte L1 ^^^ level_byte L1 := by
      rw [h1, Nat.xor_self]
    exact hm (Nat.xor_left_inj.mp h2)
  · intro hagree
    have hm : level_byte L = level_byte L1 := by
      unfold level_byte
      rw [hagree]
    rw [hm, Nat.xor_self]
    simp

/-- Witness for the amended C22: `[1, 2, 3]` encrypted at level 1 and decrypted at level 2. -/
theorem wrong_level_mask_witness :
    ∃ D, (crypto_decrypt_data Globals.ready
          (crypto_encrypt_data Globals.ready World.sample.rand (some [1, 2, 3]) true 1).2
          true 2).2 = some D ∧
      D.length = [1, 2, 3].length ∧
      ([1, 2, 3].length < 2 ^ 31 →
        (crypto_decrypt_data Globals.ready
          (crypto_encrypt_data Globals.ready World.sample.rand (some [1, 2, 3]) true 1).2
          true 2).1 = ([1, 2, 3].length : Int)) ∧
      (∀ i, i < [1, 2, 3].length →
        D.getD i 0 = [1, 2, 3].getD i 0 ^^^ level_byte (Int.xor 1 2)) ∧
      ((1 ≤ (1 : Int) ∧ (1 : Int) ≤ 5) → (1 ≤ (2 : Int) ∧ (2 : Int) ≤ 5) → (1 : Int) ≠ 2 →
        ∀ i, i < [1, 2, 3].length → D.getD i 0 ≠ [1, 2, 3].getD i 0) ∧
      ((1 : Int) % 256 = 2 % 256 → D = [1, 2, 3]) :=
  wrong_level_mask Globals.ready World.sample.rand 1 2 [1, 2, 3] (by decide) (by decide)
    (by decide)

/-! ## C23: only the low byte of the rolling state matters -/

/-- C23. For every input and every state (every master key), `crypto_compute_hash`, whose
rolling state is a 32-bit `unsigned int` starting at `0x12345678` and updated by
`h = (h << 5) + h + byte` modulo `2 ^ 32`, returns the same result as the variant that keeps an
8-bit state starting at `0x78` and updated by `s = (33 * s + byte) mod 256`. -/
theorem compute_hash_low_byte (g : Globals) (data : Option (List Nat)) (hash : Bool) :
    crypto_compute_hash g data hash = crypto_compute_hash_low_byte g data hash := by
  cases data with
  | none => rfl
  | some d =>
    have h : (hash_loop_low_byte d).2.2 = (hash_loop d).2.2 := by
      unfold hash_loop_low_byte hash_loop
      exact foldl_hash_step_low_byte_sim d _ _ rfl (by decide) rfl
    simp only [crypto_compute_hash, crypto_compute_hash_low_byte, h]

/-! ## C24: lifecycle invariant -/

/-- C24. In every state reached from program start (both flags 0, key all zero) by any
sequence of `storage_init`, `storage_cleanup`, `storage_store_file`, `storage_retrieve_file`,
`storage_delete_file` and `storage_verify_integrity` calls, storage being initialised implies
that the crypto engine is initialised, and the crypto engine not being initialised implies
that the 32 master-key bytes are all zero. -/
theorem lifecycle_invariant (calls : List Call) :
    ((run Globals.initial calls).STORAGE_INITIALIZED ≠ 0 →
        (run Globals.initial calls).INITIALIZED ≠ 0) ∧
      ((run Globals.initial calls).INITIALIZED = 0 →
        (run Globals.initial calls).MASTER_KEY = List.replicate 32 0) :=
  run_keeps_lifecycle calls Globals.initial (by decide) (by decide)

end FileStorage
